import Mathlib

/-!
Shallow embedding of the core of the py8dis disassembler
(movemanager.py, disassembly.py, classification.py, trace6502.py),
with theorems checking the natural-language specification against it.

Python integers are modelled as `Int`; the 65536-entry arrays
(`move_id_for_binary_addr`, `classifications`, `memory_binary`) are
modelled as total functions with explicit bound checks at every place
the Python code indexes them (an out-of-range index raises IndexError,
modelled as `none`).  Fallible code (a failing `assert`, an uncaught
exception) returns `none`.
-/

namespace Py8dis

/-- Modelled from the spec: `utils.is_valid_addr` (utils.py is not in the
source tree).  Spec §3 treats addresses as 16-bit values 0–0xFFFF with
0x10000 permitted as an end-of-range value, and §7 makes overflow the
condition `addr + len > 0x10000`; so an address value is valid when it
lies in `[0, 0x10000]`. -/
def is_valid_addr (a : Int) : Bool :=
  decide (0 ≤ a ∧ a ≤ 0x10000)

/-- A move definition `(dest, source, length)`, movemanager.py line 39. -/
structure MoveDef where
  dest : Int
  source : Int
  length : Int
  deriving DecidableEq, Repr

/-- movemanager.py line 23: `base_move_id = 0`. -/
def base_move_id : Nat := 0

/-- movemanager.py line 28: the identity move `(0, 0, 0x10000)`. -/
def base_def : MoveDef := ⟨0, 0, 0x10000⟩

/-- `md.owns a`: binary address `a` is in the source range of the move. -/
def MoveDef.owns (md : MoveDef) (a : Int) : Bool :=
  decide (md.source ≤ a ∧ a < md.source + md.length)

/-- The mutable module state of movemanager.py: `move_definitions`,
`move_id_for_binary_addr` (a 65536-entry array, modelled as a function)
and `active_move_ids`. -/
structure MoveState where
  move_definitions : List MoveDef
  move_id_for_binary_addr : Int → Nat
  active_move_ids : List Nat

/-- The initial module state (movemanager.py lines 25-30). -/
def initial_state : MoveState :=
  { move_definitions := [base_def]
  , move_id_for_binary_addr := fun _ => base_move_id
  , active_move_ids := [] }

/-- Pointwise array write. -/
def upd {β : Type} (f : Int → β) (a : Int) (v : β) : Int → β :=
  fun x => if x = a then v else f x

/-- The loop `for i in range(length): move_id_for_binary_addr[source + i] =
move_id` (movemanager.py lines 41-42); `n` is the number of iterations. -/
def set_range (f : Int → Nat) (source : Int) (v : Nat) : Nat → Int → Nat
  | 0 => f
  | n + 1 => upd (set_range f source v n) (source + n) v

/-- movemanager.py lines 32-43, `add_move(dest, source, length)`; a failed
assert is `none`. -/
def add_move (s : MoveState) (dest source length : Int) :
    Option (MoveState × Nat) :=
  if is_valid_addr dest ∧ is_valid_addr source ∧
      is_valid_addr (dest + length) ∧ is_valid_addr (source + length) ∧
      dest ≠ source ∧ 0 < length then
    let defs := s.move_definitions ++ [⟨dest, source, length⟩]
    let move_id := defs.length - 1
    some ({ s with
            move_definitions := defs
          , move_id_for_binary_addr :=
              set_range s.move_id_for_binary_addr source move_id
                length.toNat },
          move_id)
  else
    none

/-- movemanager.py lines 45-46. -/
def is_valid_move_id (s : MoveState) (move_id : Nat) : Bool :=
  decide (move_id = base_move_id ∨ move_id < s.move_definitions.length)

/-- movemanager.py lines 64-69, `b2r(binary_addr)`.  The assert on
line 65 and the 65536-entry array bound give the range check (index
0x10000 would raise IndexError); the assert on line 68 gives the
source-range check. -/
def b2r (s : MoveState) (a : Int) : Option Int :=
  if is_valid_addr a ∧ a < 0x10000 then
    match s.move_definitions[s.move_id_for_binary_addr a]? with
    | none => none
    | some md =>
        if md.source ≤ a ∧ a < md.source + md.length then
          some (md.dest + (a - md.source))
        else
          none
  else
    none

/-- The loop body of `move_ids_for_runtime_addr` (movemanager.py lines
76-80): scan binary addresses `0 ≤ b < n` in ascending order, appending
the owning move id of every binary address (other than ones owned by the
base move) whose `b2r` image is `r`.  A `b2r` failure aborts the run. -/
def collect_ids (s : MoveState) (r : Int) : Nat → Option (List Nat)
  | 0 => some []
  | n + 1 =>
    match collect_ids s r n with
    | none => none
    | some acc =>
        if s.move_id_for_binary_addr n ≠ base_move_id then
          match b2r s n with
          | none => none
          | some rn =>
              if rn = r then some (acc ++ [s.move_id_for_binary_addr n])
              else some acc
        else
          some acc

/-- movemanager.py lines 71-80, `move_ids_for_runtime_addr`. -/
def move_ids_for_runtime_addr (s : MoveState) (r : Int) :
    Option (List Nat) :=
  if is_valid_addr r then collect_ids s r 0x10000 else none

/-- Result of `r2b`: either a resolved `(binary address, move id)` pair,
or the unresolved `(None, None)`. -/
inductive R2BResult where
  | resolved (binary : Int) (move_id : Nat)
  | unresolved
  deriving DecidableEq, Repr

/-- movemanager.py lines 89-106, `r2b(runtime_addr)`. -/
def r2b (s : MoveState) (r : Int) : Option R2BResult :=
  match move_ids_for_runtime_addr s r with
  | none => none
  | some relevant =>
    match relevant with
    | [] => some (.resolved r base_move_id)
    | _ =>
        match
          (if relevant.length = 1 then relevant.head?
           else s.active_move_ids.reverse.find? (· ∈ relevant)) with
        | none => some .unresolved
        | some m =>
            match s.move_definitions[m]? with
            | none => none
            | some md =>
                if md.dest ≤ r ∧ r < md.dest + md.length then
                  some (.resolved (md.source + (r - md.dest)) m)
                else
                  none

/-- Modelled from the spec: `movemanager.r2b_checked` is referenced by
disassembly.py and trace6502.py but is not present in the movemanager.py
draft in the source tree; per spec §4.2, `r2b` returns "unresolved" when
disambiguation fails and `_checked` variants assert success. -/
def r2b_checked (s : MoveState) (r : Int) : Option (Int × Nat) :=
  match r2b s r with
  | some (.resolved b m) => some (b, m)
  | _ => none

/-- Sequential `add_move` calls starting from a given state. -/
def apply_moves_from (s : MoveState) : List MoveDef → Option MoveState
  | [] => some s
  | m :: rest =>
    match add_move s m.dest m.source m.length with
    | none => none
    | some (s', _) => apply_moves_from s' rest

/-- Sequential `add_move` calls starting from the initial module state. -/
def apply_moves (moves : List MoveDef) : Option MoveState :=
  apply_moves_from initial_state moves

/-- Replace the active move stack (the `moved` context manager pushes on
entry and pops on exit; movemanager.py lines 49-59). -/
def with_active (s : MoveState) (ids : List Nat) : MoveState :=
  { s with active_move_ids := ids }

/-- A state that can arise in a run: some sequence of successful
`add_move` calls, with any active move stack built up by `moved`. -/
def Reachable (s : MoveState) : Prop :=
  ∃ moves active s0, apply_moves moves = some s0 ∧ s = with_active s0 active

/-- Coherence of a movemanager state: slot 0 of `move_definitions` is
the identity move, and the owning move of every binary address exists
and has that address inside its source range. -/
def Coherent (s : MoveState) : Prop :=
  s.move_definitions[base_move_id]? = some base_def ∧
  ∀ a : Int, 0 ≤ a → a < 0x10000 →
    ∃ md, s.move_definitions[s.move_id_for_binary_addr a]? = some md ∧
      md.owns a = true

/-- The move that owns binary address `a` after the calls in `moves`
(later moves steal source bytes from earlier ones), together with its
move id; `idx` is the id of the first move in the list.  `none` means
no listed move owns `a` (ownership falls back to the base move). -/
def stealing_owner : List MoveDef → Int → Nat → Option (MoveDef × Nat)
  | [], _, _ => none
  | m :: rest, a, idx =>
    match stealing_owner rest a (idx + 1) with
    | some r => some r
    | none => if m.owns a then some (m, idx) else none

/-! ### The claim's r2b algorithm (for refinement comparison)

`claim_relevant_ids` and `claim_r2b` follow the words of the claim for
`r2b` ("collect every move id whose destination range covers
runtime_addr", then the same selection steps); they are compared against
the source-derived `r2b` above. -/

/-- The claim's relevant set: every non-base move id whose destination
range covers `r` (written from the claim's words, not from the source). -/
def claim_relevant_ids (s : MoveState) (r : Int) : List Nat :=
  (List.range s.move_definitions.length).filter fun i =>
    decide (i ≠ 0) &&
      match s.move_definitions[i]? with
      | some md => decide (md.dest ≤ r ∧ r < md.dest + md.length)
      | none => false

/-- The claim's r2b algorithm: like `r2b` but with the relevant set
computed from destination-range coverage (from the claim's words). -/
def claim_r2b (s : MoveState) (r : Int) : Option R2BResult :=
  if is_valid_addr r then
    match claim_relevant_ids s r with
    | [] => some (.resolved r base_move_id)
    | relevant =>
        match
          (if relevant.length = 1 then relevant.head?
           else s.active_move_ids.reverse.find? (· ∈ relevant)) with
        | none => some .unresolved
        | some m =>
            match s.move_definitions[m]? with
            | none => none
            | some md =>
                if md.dest ≤ r ∧ r < md.dest + md.length then
                  some (.resolved (md.source + (r - md.dest)) m)
                else
                  none
  else
    none

/-! ### Memory and classifications (memorymanager.py / disassembly.py) -/

/-- The 65536-entry `memory_binary` array of optional bytes (spec §3):
`none` is a not-loaded byte.  Callers index it through `BinaryAddr`
values, which are in `[0, 0x10000)`. -/
def Mem : Type := Int → Option Int

/-- trace6502.py lines 59-61, `get_u8(i)`: the byte must be loaded (the
assert) and the index must be in range for the 65536-entry array. -/
def get_u8 (mem : Mem) (a : Int) : Option Int :=
  if 0 ≤ a ∧ a < 0x10000 then mem a else none

/-- Modelled from the spec: `utils.get_u16` (utils.py is not in the
source tree) reads a 16-bit little-endian value; both bytes must be
loaded, else the run aborts. -/
def get_u16 (mem : Mem) (a : Int) : Option Int :=
  match get_u8 mem a, get_u8 mem (a + 1) with
  | some lo, some hi => some (lo + 256 * hi)
  | _, _ => none

/-- trace6502.py lines 52-57, `signed8(i)`. -/
def signed8 (i : Int) : Option Int :=
  if 0 ≤ i ∧ i ≤ 255 then some (if 0x80 ≤ i then i - 256 else i) else none

/-- A stored classification: Byte/Word/String data runs
(classification.py) or an instruction (an `Opcode` object,
trace6502.py); each knows its length in bytes. -/
inductive Classification where
  | byte (len : Int)
  | word (len : Int)
  | str (len : Int)
  | instr (operand_length : Nat)
  deriving DecidableEq, Repr

/-- `length()` of a classification; for an opcode it is
`1 + operand_length` (trace6502.py lines 120-121). -/
def Classification.clength : Classification → Int
  | .byte n => n
  | .word n => n
  | .str n => n
  | .instr k => 1 + (k : Int)

/-- The `Byte(length)` constructor (classification.py lines 62-66)
asserts `length > 0`. -/
def mkByte (n : Int) : Option Classification :=
  if 0 < n then some (.byte n) else none

/-- The `String(length)` constructor (classification.py lines 108-110)
asserts `length > 0`. -/
def mkString (n : Int) : Option Classification :=
  if 0 < n then some (.str n) else none

/-- One slot of the `classifications` array (disassembly.py lines
42-43, 67-72): unclassified (`None`), the `inside_a_classification`
sentinel, or a stored classification object. -/
inductive CEntry where
  | unclassified
  | inside
  | cls (c : Classification)
  deriving DecidableEq, Repr

/-- The 65536-entry `classifications` array, modelled as a function;
slots outside `[0, 0x10000)` do not exist (they stay `unclassified` in
every state the code can build). -/
def Cls : Type := Int → CEntry

/-- disassembly.py lines 465-468, `is_classified(binary_addr, length)`:
`any(x is not None for x in classifications[addr:addr+length])`.  A
Python slice silently truncates at the end of the array, hence the
range condition inside the scan (callers always pass `0 ≤ addr`). -/
def is_classified (cls : Cls) (addr : Int) (length : Int) : Bool :=
  (List.range length.toNat).any fun i =>
    decide (addr + i < 0x10000) && decide (cls (addr + i) ≠ .unclassified)

/-- The sentinel-stamping loop of `add_classification` (disassembly.py
lines 483-484): writes `inside` at `addr + 1 .. addr + n`. -/
def write_inside (cls : Cls) (addr : Int) : Nat → Cls
  | 0 => cls
  | n + 1 => upd (write_inside cls addr n) (addr + (n + 1)) .inside

/-- disassembly.py lines 470-484, `add_classification(binary_addr,
classification)`: the `BinaryAddr` conversion needs a valid index, the
assert rejects any overlap with an existing classification, and the
sentinel writes must stay inside the array. -/
def add_classification (cls : Cls) (addr : Int) (c : Classification) :
    Option Cls :=
  if 0 ≤ addr ∧ addr < 0x10000 then
    if is_classified cls addr c.clength then none
    else if addr + c.clength ≤ 0x10000 then
      some (write_inside (upd cls addr (.cls c)) addr (c.clength - 1).toNat)
    else none
  else none

/-- The walk-back loop of `split_classification` (disassembly.py lines
771-772): decrement while the slot holds the sentinel.  The fuel is
always sufficient in states satisfying the array invariant (the walk
stops at the classification that owns the sentinel). -/
def scan_back (cls : Cls) : Int → Nat → Int
  | a, 0 => a
  | a, n + 1 => if cls a = .inside then scan_back cls (a - 1) n else a

/-- disassembly.py lines 759-775, `split_classification(binary_addr)`.
If the walk back lands on a slot that holds no classification object
the Python code crashes on `None.length()`, modelled as `none`; the two
`Byte` constructors assert their lengths are positive. -/
def split_classification (cls : Cls) (addr : Int) : Option Cls :=
  if 0x10000 ≤ addr then some cls
  else if cls addr ≠ .inside then some cls
  else
    match cls (scan_back cls addr (addr.toNat + 1)) with
    | .cls c =>
        match
          mkByte (c.clength - (addr - scan_back cls addr (addr.toNat + 1))),
          mkByte (addr - scan_back cls addr (addr.toNat + 1)) with
        | some c1, some c2 =>
            some (upd (upd cls addr (.cls c1))
              (scan_back cls addr (addr.toNat + 1)) (.cls c2))
        | _, _ => none
    | _ => none

/-- The classifications-array invariant of the claim: every stored
classification has positive length, is followed by sentinel slots up to
its length, its one-past-the-end slot is not a sentinel, every sentinel
is covered by a stored classification, and slots outside the array are
unclassified. -/
def ClsWF (cls : Cls) : Prop :=
  (∀ a c, cls a = .cls c →
    0 < c.clength ∧
    (∀ i : Int, 1 ≤ i → i < c.clength → cls (a + i) = .inside) ∧
    cls (a + c.clength) ≠ .inside) ∧
  (∀ p, cls p = .inside →
    ∃ a c, cls a = .cls c ∧ a < p ∧ p < a + c.clength) ∧
  (∀ a, a < 0 ∨ 0x10000 ≤ a → cls a = .unclassified)

/-! ### String classifiers (classification.py) -/

/-- The scan loop of `stringterm` (classification.py lines 285-286):
`while memory_binary[addr] != terminator: addr += 1`.  A not-loaded
slot (`none`) never equals the terminator, so the loop runs on past the
end of a loaded range; fuel `0` is the IndexError at the end of the
65536-entry array. -/
def scan_term (mem : Mem) (term : Int) : Int → Nat → Option Int
  | _, 0 => none
  | a, n + 1 => if mem a = some term then some a else scan_term mem term (a + 1) n

/-- classification.py lines 276-292, `stringterm(runtime_addr,
terminator, exclude_terminator)`. -/
def stringterm (s : MoveState) (cls : Cls) (mem : Mem) (r term : Int)
    (exclude_terminator : Bool) : Option (Cls × Int) :=
  match r2b_checked s r with
  | none => none
  | some (b0, _mid) =>
    match scan_term mem term b0 (0x10000 - b0).toNat with
    | none => none
    | some e =>
      let string_length :=
        (e + 1) - b0 - (if exclude_terminator then 1 else 0)
      match
        (if 0 < string_length then
          (mkString string_length).bind (add_classification cls b0)
        else some cls) with
      | none => none
      | some cls' =>
        match b2r s (e + 1) with
        | none => none
        | some nxt => some (cls', nxt)

/-- classification.py lines 302-308, `stringz(runtime_addr,
exclude_terminator)`: `stringterm` with terminator 0. -/
def stringz (s : MoveState) (cls : Cls) (mem : Mem) (r : Int)
    (exclude_terminator : Bool) : Option (Cls × Int) :=
  stringterm s cls mem r 0 exclude_terminator

/-! ### The 6502 instruction set and tracer step (trace6502.py) -/

/-- The addressing-mode subclass of an `Opcode` object. -/
inductive AddrMode where
  | implied
  | immediate
  | zp
  | dataAbs
  | jmpAbs
  | jmpInd
  | jsr
  | ret
  | condBranch
  deriving DecidableEq, Repr

/-- One entry of the opcode table: mnemonic, addressing-mode subclass
and operand length. -/
structure Opc where
  mnemonic : String
  mode : AddrMode
  operand_length : Nat
  deriving DecidableEq, Repr

/-- trace6502.py lines 513-664: the 6502 opcode table (`opcodes`);
values not in the table give `none`. -/
def opcodes : Int → Option Opc
  | 0x00 => some ⟨"BRK", .ret, 0⟩
  | 0x01 => some ⟨"ORA", .zp, 1⟩
  | 0x05 => some ⟨"ORA", .zp, 1⟩
  | 0x06 => some ⟨"ASL", .zp, 1⟩
  | 0x08 => some ⟨"PHP", .implied, 0⟩
  | 0x09 => some ⟨"ORA", .immediate, 1⟩
  | 0x0a => some ⟨"ASL A", .implied, 0⟩
  | 0x0d => some ⟨"ORA", .dataAbs, 2⟩
  | 0x0e => some ⟨"ASL", .dataAbs, 2⟩
  | 0x10 => some ⟨"BPL", .condBranch, 1⟩
  | 0x11 => some ⟨"ORA", .zp, 1⟩
  | 0x15 => some ⟨"ORA", .zp, 1⟩
  | 0x16 => some ⟨"ASL", .zp, 1⟩
  | 0x18 => some ⟨"CLC", .implied, 0⟩
  | 0x19 => some ⟨"ORA", .dataAbs, 2⟩
  | 0x1d => some ⟨"ORA", .dataAbs, 2⟩
  | 0x1e => some ⟨"ASL", .dataAbs, 2⟩
  | 0x20 => some ⟨"JSR", .jsr, 2⟩
  | 0x21 => some ⟨"AND", .zp, 1⟩
  | 0x24 => some ⟨"BIT", .zp, 1⟩
  | 0x25 => some ⟨"AND", .zp, 1⟩
  | 0x26 => some ⟨"ROL", .zp, 1⟩
  | 0x28 => some ⟨"PLP", .implied, 0⟩
  | 0x29 => some ⟨"AND", .immediate, 1⟩
  | 0x2a => some ⟨"ROL A", .implied, 0⟩
  | 0x2c => some ⟨"BIT", .dataAbs, 2⟩
  | 0x2d => some ⟨"AND", .dataAbs, 2⟩
  | 0x2e => some ⟨"ROL", .dataAbs, 2⟩
  | 0x30 => some ⟨"BMI", .condBranch, 1⟩
  | 0x31 => some ⟨"AND", .zp, 1⟩
  | 0x35 => some ⟨"AND", .zp, 1⟩
  | 0x36 => some ⟨"ROL", .zp, 1⟩
  | 0x38 => some ⟨"SEC", .implied, 0⟩
  | 0x39 => some ⟨"AND", .dataAbs, 2⟩
  | 0x3d => some ⟨"AND", .dataAbs, 2⟩
  | 0x3e => some ⟨"ROL", .dataAbs, 2⟩
  | 0x40 => some ⟨"RTI", .ret, 0⟩
  | 0x41 => some ⟨"EOR", .zp, 1⟩
  | 0x45 => some ⟨"EOR", .zp, 1⟩
  | 0x46 => some ⟨"LSR", .zp, 1⟩
  | 0x48 => some ⟨"PHA", .implied, 0⟩
  | 0x49 => some ⟨"EOR", .immediate, 1⟩
  | 0x4a => some ⟨"LSR A", .implied, 0⟩
  | 0x4c => some ⟨"JMP", .jmpAbs, 2⟩
  | 0x4d => some ⟨"EOR", .dataAbs, 2⟩
  | 0x4e => some ⟨"LSR", .dataAbs, 2⟩
  | 0x50 => some ⟨"BVC", .condBranch, 1⟩
  | 0x51 => some ⟨"EOR", .zp, 1⟩
  | 0x55 => some ⟨"EOR", .zp, 1⟩
  | 0x56 => some ⟨"LSR", .zp, 1⟩
  | 0x58 => some ⟨"CLI", .implied, 0⟩
  | 0x59 => some ⟨"EOR", .dataAbs, 2⟩
  | 0x5d => some ⟨"EOR", .dataAbs, 2⟩
  | 0x5e => some ⟨"LSR", .dataAbs, 2⟩
  | 0x60 => some ⟨"RTS", .ret, 0⟩
  | 0x61 => some ⟨"ADC", .zp, 1⟩
  | 0x65 => some ⟨"ADC", .zp, 1⟩
  | 0x66 => some ⟨"ROR", .zp, 1⟩
  | 0x68 => some ⟨"PLA", .implied, 0⟩
  | 0x69 => some ⟨"ADC", .immediate, 1⟩
  | 0x6a => some ⟨"ROR A", .implied, 0⟩
  | 0x6c => some ⟨"JMP", .jmpInd, 2⟩
  | 0x6d => some ⟨"ADC", .dataAbs, 2⟩
  | 0x6e => some ⟨"ROR", .dataAbs, 2⟩
  | 0x70 => some ⟨"BVS", .condBranch, 1⟩
  | 0x71 => some ⟨"ADC", .zp, 1⟩
  | 0x75 => some ⟨"ADC", .zp, 1⟩
  | 0x76 => some ⟨"ROR", .zp, 1⟩
  | 0x78 => some ⟨"SEI", .implied, 0⟩
  | 0x79 => some ⟨"ADC", .dataAbs, 2⟩
  | 0x7d => some ⟨"ADC", .dataAbs, 2⟩
  | 0x7e => some ⟨"ROR", .dataAbs, 2⟩
  | 0x81 => some ⟨"STA", .zp, 1⟩
  | 0x84 => some ⟨"STY", .zp, 1⟩
  | 0x85 => some ⟨"STA", .zp, 1⟩
  | 0x86 => some ⟨"STX", .zp, 1⟩
  | 0x88 => some ⟨"DEY", .implied, 0⟩
  | 0x8a => some ⟨"TXA", .implied, 0⟩
  | 0x8c => some ⟨"STY", .dataAbs, 2⟩
  | 0x8d => some ⟨"STA", .dataAbs, 2⟩
  | 0x8e => some ⟨"STX", .dataAbs, 2⟩
  | 0x90 => some ⟨"BCC", .condBranch, 1⟩
  | 0x91 => some ⟨"STA", .zp, 1⟩
  | 0x94 => some ⟨"STY", .zp, 1⟩
  | 0x95 => some ⟨"STA", .zp, 1⟩
  | 0x96 => some ⟨"STX", .zp, 1⟩
  | 0x98 => some ⟨"TYA", .implied, 0⟩
  | 0x99 => some ⟨"STA", .dataAbs, 2⟩
  | 0x9a => some ⟨"TXS", .implied, 0⟩
  | 0x9d => some ⟨"STA", .dataAbs, 2⟩
  | 0xa0 => some ⟨"LDY", .immediate, 1⟩
  | 0xa1 => some ⟨"LDA", .zp, 1⟩
  | 0xa2 => some ⟨"LDX", .immediate, 1⟩
  | 0xa4 => some ⟨"LDY", .zp, 1⟩
  | 0xa5 => some ⟨"LDA", .zp, 1⟩
  | 0xa6 => some ⟨"LDX", .zp, 1⟩
  | 0xa8 => some ⟨"TAY", .implied, 0⟩
  | 0xa9 => some ⟨"LDA", .immediate, 1⟩
  | 0xaa => some ⟨"TAX", .implied, 0⟩
  | 0xac => some ⟨"LDY", .dataAbs, 2⟩
  | 0xad => some ⟨"LDA", .dataAbs, 2⟩
  | 0xae => some ⟨"LDX", .dataAbs, 2⟩
  | 0xb0 => some ⟨"BCS", .condBranch, 1⟩
  | 0xb1 => some ⟨"LDA", .zp, 1⟩
  | 0xb4 => some ⟨"LDY", .zp, 1⟩
  | 0xb5 => some ⟨"LDA", .zp, 1⟩
  | 0xb8 => some ⟨"CLV", .implied, 0⟩
  | 0xb9 => some ⟨"LDA", .dataAbs, 2⟩
  | 0xba => some ⟨"TSX", .implied, 0⟩
  | 0xbc => some ⟨"LDY", .dataAbs, 2⟩
  | 0xbd => some ⟨"LDA", .dataAbs, 2⟩
  | 0xbe => some ⟨"LDX", .dataAbs, 2⟩
  | 0xc0 => some ⟨"CPY", .immediate, 1⟩
  | 0xc1 => some ⟨"CMP", .zp, 1⟩
  | 0xc4 => some ⟨"CPY", .zp, 1⟩
  | 0xc5 => some ⟨"CMP", .zp, 1⟩
  | 0xc6 => some ⟨"DEC", .zp, 1⟩
  | 0xc8 => some ⟨"INY", .implied, 0⟩
  | 0xc9 => some ⟨"CMP", .immediate, 1⟩
  | 0xca => some ⟨"DEX", .implied, 0⟩
  | 0xcc => some ⟨"CPY", .dataAbs, 2⟩
  | 0xcd => some ⟨"CMP", .dataAbs, 2⟩
  | 0xce => some ⟨"DEC", .dataAbs, 2⟩
  | 0xd0 => some ⟨"BNE", .condBranch, 1⟩
  | 0xd1 => some ⟨"CMP", .zp, 1⟩
  | 0xd5 => some ⟨"CMP", .zp, 1⟩
  | 0xd6 => some ⟨"DEC", .zp, 1⟩
  | 0xd8 => some ⟨"CLD", .implied, 0⟩
  | 0xd9 => some ⟨"CMP", .dataAbs, 2⟩
  | 0xdd => some ⟨"CMP", .dataAbs, 2⟩
  | 0xde => some ⟨"DEC", .dataAbs, 2⟩
  | 0xe0 => some ⟨"CPX", .immediate, 1⟩
  | 0xe1 => some ⟨"SBC", .zp, 1⟩
  | 0xe4 => some ⟨"CPX", .zp, 1⟩
  | 0xe5 => some ⟨"SBC", .zp, 1⟩
  | 0xe6 => some ⟨"INC", .zp, 1⟩
  | 0xe8 => some ⟨"INX", .implied, 0⟩
  | 0xe9 => some ⟨"SBC", .immediate, 1⟩
  | 0xea => some ⟨"NOP", .implied, 0⟩
  | 0xec => some ⟨"CPX", .dataAbs, 2⟩
  | 0xed => some ⟨"SBC", .dataAbs, 2⟩
  | 0xee => some ⟨"INC", .dataAbs, 2⟩
  | 0xf0 => some ⟨"BEQ", .condBranch, 1⟩
  | 0xf1 => some ⟨"SBC", .zp, 1⟩
  | 0xf5 => some ⟨"SBC", .zp, 1⟩
  | 0xf6 => some ⟨"INC", .zp, 1⟩
  | 0xf8 => some ⟨"SED", .implied, 0⟩
  | 0xf9 => some ⟨"SBC", .dataAbs, 2⟩
  | 0xfd => some ⟨"SBC", .dataAbs, 2⟩
  | 0xfe => some ⟨"INC", .dataAbs, 2⟩
  | _ => none

/-- trace6502.py lines 20-25, `apply_move(runtime_addr)`: `r2b`, giving
`[]` when unresolved and the singleton binary address otherwise. -/
def apply_move (s : MoveState) (r : Int) : Option (List Int) :=
  match r2b s r with
  | none => none
  | some .unresolved => some []
  | some (.resolved b _) => some [b]

/-- `apply_move` run inside `with moved(mid)` (the `moved` context
manager asserts the move id is valid, pushes it, and pops it again). -/
def moved_apply_move (s : MoveState) (mid : Nat) (r : Int) :
    Option (List Int) :=
  if is_valid_move_id s mid then
    apply_move (with_active s (s.active_move_ids ++ [mid])) r
  else none

/-- trace6502.py lines 27-33, `apply_move2(target, context)`: translate
`target` with the move owning binary address `context` active. -/
def apply_move2 (s : MoveState) (target context : Int) :
    Option (List Int) :=
  if 0 ≤ context ∧ context < 0x10000 then
    moved_apply_move s (s.move_id_for_binary_addr context) target
  else none

/-- trace6502.py lines 361-363, `OpcodeConditionalBranch._target`:
`b2r(addr) + 2 + signed8(get_u8(addr + 1))`. -/
def condbranch_target (s : MoveState) (mem : Mem) (addr : Int) :
    Option Int :=
  match b2r s addr with
  | none => none
  | some base =>
    match get_u8 mem (addr + 1) with
    | none => none
    | some op =>
      match signed8 op with
      | none => none
      | some d => some (base + 2 + d)

/-- A JSR hook: `(target_runtime, caller_runtime) → next runtime
address or None`; the outer `none` is a failed assert inside the hook. -/
def JsrHook : Type := Int → Int → Option (Option Int)

/-- The table of registered JSR hooks, keyed by target runtime
address. -/
def Hooks : Type := Int → Option JsrHook

/-- trace6502.py lines 311-319, `simple_jsr_hook`: asserts that the
caller runtime address maps back (under the move pushed around the
call) to the JSR's own binary address, then returns `caller + 3`. -/
def simple_jsr_hook (pushed : MoveState) (binary_addr : Int) : JsrHook :=
  fun _target caller =>
    match r2b_checked pushed caller with
    | none => none
    | some (b, _) => if b = binary_addr then some (some (caller + 3)) else none

/-- The `if return_runtime_addr is not None` block of
`OpcodeJsr.disassemble` (trace6502.py lines 324-338), computing the
straight-line part of the successor list from the hook's result. -/
def jsr_core (s : MoveState) (binary_addr : Int) (ret : Option Int) :
    Option (List (Option Int)) :=
  match ret with
  | some r =>
    match apply_move s r with
    | none => none
    | some [] =>
        if b2r s (binary_addr + 3) = some r then
          some [some (binary_addr + 3)]
        else
          some [(none : Option Int)]
    | some (b :: _) => some [some b]
  | none => some [(none : Option Int)]

/-- The Python local `jsr_hook = jsr_hooks.get(target_runtime_addr,
simple_jsr_hook)` (trace6502.py line 320); the hook runs with the move
owning the JSR's binary address pushed on the active stack. -/
def jsr_effective_hook (s : MoveState) (hooks : Hooks)
    (binary_addr target : Int) : JsrHook :=
  (hooks target).getD
    (simple_jsr_hook
      (with_active s (s.active_move_ids ++
        [s.move_id_for_binary_addr binary_addr]))
      binary_addr)

/-- trace6502.py lines 301-340, `OpcodeJsr.disassemble`. -/
def jsr_disassemble (s : MoveState) (mem : Mem) (hooks : Hooks)
    (binary_addr : Int) : Option (List (Option Int)) :=
  match get_u16 mem (binary_addr + 1) with
  | none => none
  | some target =>
    match b2r s binary_addr with
    | none => none
    | some caller =>
      if 0 ≤ binary_addr ∧ binary_addr < 0x10000 then
        if is_valid_move_id s (s.move_id_for_binary_addr binary_addr) then
          match jsr_effective_hook s hooks binary_addr target target caller with
          | none => none
          | some ret =>
            match jsr_core s binary_addr ret with
            | none => none
            | some core =>
              match apply_move s target with
              | none => none
              | some tl => some (core ++ tl.map some)
        else none
      else none

/-- `Opcode.disassemble` dispatched on the addressing-mode subclass
(trace6502.py lines 155-156, 172-173, 194-195, 249-251, 269-272,
283-284, 301-340, 350-351, 372-374). -/
def opc_disassemble (o : Opc) (s : MoveState) (mem : Mem) (hooks : Hooks)
    (addr : Int) : Option (List (Option Int)) :=
  match o.mode with
  | .implied => some [some (addr + 1)]
  | .immediate => some [some (addr + 2)]
  | .zp => some [some (addr + 2)]
  | .dataAbs => some [some (addr + 3)]
  | .jmpInd => some [none]
  | .ret => some [none]
  | .jmpAbs =>
      match get_u16 mem (addr + 1) with
      | none => none
      | some t =>
          match apply_move2 s t addr with
          | none => none
          | some l => some (none :: l.map some)
  | .condBranch =>
      match condbranch_target s mem addr with
      | none => none
      | some t =>
          match apply_move2 s t addr with
          | none => none
          | some l => some (some (addr + 2) :: l.map some)
  | .jsr => jsr_disassemble s mem hooks addr

/-- `Opcode.update_references` per addressing-mode subclass: the
reference pairs `(operand target, referencing binary address)` it adds
to the target labels.  The zero-page operand may be a not-loaded byte
(Python would file the reference under key `None`), hence the optional
first component. -/
def opc_update_references (o : Opc) (s : MoveState) (mem : Mem)
    (addr : Int) : Option (List (Option Int × Int)) :=
  match o.mode with
  | .implied | .immediate | .ret => some []
  | .zp =>
      if 0 ≤ addr + 1 ∧ addr + 1 < 0x10000 then some [(mem (addr + 1), addr)]
      else none
  | .dataAbs | .jmpInd | .jmpAbs | .jsr =>
      match get_u16 mem (addr + 1) with
      | none => none
      | some t => some [(some t, addr)]
  | .condBranch =>
      match condbranch_target s mem addr with
      | none => none
      | some t => some [(some t, addr)]

/-- An annotation recorded by the tracer at a binary address; the
`overlapping` advisory annotation carries the length of the instruction
it would have decoded (the comment text itself is presentation only). -/
inductive TraceAnnotation where
  | overlapping (instruction_length : Nat)
  deriving DecidableEq, Repr

/-- The state `disassemble_instruction` reads and writes: the
classifications array, the annotations list and the label references. -/
structure DisState where
  cls : Cls
  annots : List (Int × TraceAnnotation)
  refs : List (Option Int × Int)

/-- trace6502.py lines 667-686, `disassemble_instruction(binary_addr)`:
unknown (or not-loaded) opcode gives `[None]`; an already-classified
stretch gets an advisory overlapping annotation and no classification;
otherwise the opcode is stored as the classification and references are
updated; in both of the latter cases the successors come from
`opcode.disassemble`. -/
def disassemble_instruction (st : DisState) (s : MoveState) (mem : Mem)
    (hooks : Hooks) (addr : Int) :
    Option (DisState × List (Option Int)) :=
  if 0 ≤ addr ∧ addr < 0x10000 then
    match mem addr >>= opcodes with
    | none => some (st, [none])
    | some o =>
        if is_classified st.cls addr (1 + (o.operand_length : Int)) then
          match opc_disassemble o s mem hooks addr with
          | none => none
          | some succ =>
              some ({ st with
                      annots := st.annots ++
                        [(addr, .overlapping (1 + o.operand_length))] },
                    succ)
        else
          match add_classification st.cls addr (.instr o.operand_length) with
          | none => none
          | some cls' =>
              match opc_update_references o s mem addr with
              | none => none
              | some newrefs =>
                  match opc_disassemble o s mem hooks addr with
                  | none => none
                  | some succ =>
                      some ({ st with cls := cls', refs := st.refs ++ newrefs },
                            succ)
  else none

/-! ### Labels (disassembly.py / label.py) -/

/-- label.py lines 22-47: the per-address label record.  In the source
`explicit_names` and `expressions` are defaultdicts of lists keyed by
move id; each is flattened here into an insertion-ordered list of
(text, move id) pairs, which determines the per-key lists. -/
structure Label where
  explicit_names : List (String × Nat)
  expressions : List (String × Nat)
  relevant_active_move_ids : List Nat
  definable_inline : Bool
  deriving DecidableEq, Repr

/-- A fresh `Label` as created by the labels defaultdict. -/
def default_label : Label :=
  { explicit_names := []
  , expressions := []
  , relevant_active_move_ids := []
  , definable_inline := true }

/-- The labels map, runtime address to label record (a defaultdict). -/
def Labels : Type := Int → Label

/-- disassembly.py lines 142-143: a letter or underscore. -/
def valid_first (c : Char) : Bool :=
  c.isAlpha || c = '_'

/-- disassembly.py lines 144-145: a letter, digit or underscore. -/
def valid_later (c : Char) : Bool :=
  c.isAlphanum || c = '_'

/-- disassembly.py lines 133-146, `is_simple_name(s)`: asserts the name
is nonempty, then checks `valid_first(s[0]) and all(valid_later(c) for
c in s)`. -/
def is_simple_name (s : String) : Option Bool :=
  match s.data with
  | [] => none
  | c :: rest => some (valid_first c && (c :: rest).all valid_later)

/-- label.py lines 100-117, `Label.all_names()`: every name known for
the label.  The source also adds, per move id, the first local-label
entry, but that entry is a whole `(name, start, end)` tuple, which
never compares equal to a name string, so it cannot affect the string
membership tests in `add_explicit_name`/`add_expression`; what remains
are the explicit name texts and the expression strings. -/
def Label.all_names (l : Label) : List String :=
  l.explicit_names.map Prod.fst ++ l.expressions.map Prod.fst

/-- label.py lines 141-163, `Label.add_explicit_name(name, move_id)`:
a `None` move id defaults to `BASE_MOVE_ID`; asserts that the name is
simple and that the move id is valid; appends the name under the move
id only when it is not already among `all_names()`. -/
def Label.add_explicit_name (ms : MoveState) (l : Label) (name : String)
    (move_id : Option Nat) : Option Label :=
  match is_simple_name name with
  | some true =>
      if is_valid_move_id ms (move_id.getD base_move_id) then
        if name ∈ l.all_names then some l
        else some { l with explicit_names :=
          l.explicit_names ++ [(name, move_id.getD base_move_id)] }
      else none
  | _ => none

/-- label.py lines 176-183, `Label.add_expression(s, move_id)`: asserts
that the string is not a simple name and that the move id is valid;
unlike `add_explicit_name` it does not default a `None` move id, and
`is_valid_move_id(None)` raises (`0 <= None` is a TypeError), so a
`None` move id aborts; appends the string under the move id only when
it is not already among `all_names()`. -/
def Label.add_expression (ms : MoveState) (l : Label) (s : String)
    (move_id : Option Nat) : Option Label :=
  match is_simple_name s with
  | some false =>
      match move_id with
      | none => none
      | some m =>
          if is_valid_move_id ms m then
            if s ∈ l.all_names then some l
            else some { l with expressions := l.expressions ++ [(s, m)] }
          else none
  | _ => none

/-- disassembly.py lines 161-164: record the move id among the label's
relevant active move ids; Python's `if move_id and ...` treats both
`None` and `0` (the base move id) as false. -/
def Label.add_relevant (lab : Label) (move_id : Option Nat) : Label :=
  match move_id with
  | some m =>
      if m ≠ 0 ∧ m ∉ lab.relevant_active_move_ids then
        { lab with relevant_active_move_ids :=
            lab.relevant_active_move_ids ++ [m] }
      else lab
  | none => lab

/-- disassembly.py lines 148-166, `add_label(runtime_addr, s, move_id,
definable_inline)`.  (The `is_valid_runtime_addr` call on line 151 is a
bare expression whose result is discarded; the label methods invoked on
lines 157/159 are `Label.add_explicit_name` and `Label.add_expression`
from label.py, whose asserts can abort the call.) -/
def add_label (ms : MoveState) (ls : Labels) (r : Int) (s : Option String)
    (move_id : Option Nat) (definable_inline : Bool) : Option Labels :=
  let lab0 := ls r
  let lab1 :=
    { lab0 with definable_inline := lab0.definable_inline && definable_inline }
  let named : Option Label :=
    match s with
    | none => some lab1
    | some name =>
        match is_simple_name name with
        | none => none
        | some true => lab1.add_explicit_name ms name move_id
        | some false => lab1.add_expression ms name move_id
  match named with
  | none => none
  | some lab2 => some (upd ls r (lab2.add_relevant move_id))

/-! ### Concrete states used by witnesses and counterexamples -/

/-- Two moves, the second of which steals binary addresses 0x12-0x13
from the first. -/
def steal_moves : List MoveDef := [⟨0x40, 0x10, 6⟩, ⟨0x80, 0x12, 2⟩]

/-- The movemanager state after the two `steal_moves` calls. -/
def steal_state : MoveState :=
  (apply_moves steal_moves).getD initial_state

/-- An empty classifications array. -/
def cls_empty : Cls := fun _ => .unclassified

/-- No JSR hooks registered. -/
def hooks_empty : Hooks := fun _ => none

/-- An empty labels map. -/
def labels_empty : Labels := fun _ => default_label

/-- Memory with a conditional branch `BNE -2` at 0x20. -/
def mem_bne : Mem := fun a =>
  if a = 0x20 then some 0xd0 else if a = 0x21 then some 0xfe else none

/-- Memory with `JSR 0x9000` at 0x40. -/
def mem_jsr : Mem := fun a =>
  if a = 0x40 then some 0x20
  else if a = 0x41 then some 0x00
  else if a = 0x42 then some 0x90
  else none

/-- Memory with a `NOP` at 0x30. -/
def mem_nop : Mem := fun a => if a = 0x30 then some 0xea else none

/-- A classifications array holding a three-byte data run at 0x2F. -/
def cls_word : Cls := fun a =>
  if a = 0x2f then .cls (.byte 3)
  else if a = 0x30 ∨ a = 0x31 then .inside
  else .unclassified

/-- Tracer state whose classifications are `cls_word`. -/
def dis_word : DisState := { cls := cls_word, annots := [], refs := [] }

/-- A classifications array with a three-byte run at 0x2F, built by
`add_classification` from an empty array. -/
def cls_added : Cls :=
  (add_classification cls_empty 0x2f (.byte 3)).getD cls_empty

/-- `cls_added` after `split_classification` at 0x30. -/
def cls_split : Cls :=
  (split_classification cls_added 0x30).getD cls_added

/-- Memory whose only loaded range is the two bytes 1, 2 at
0x10-0x11, with a zero byte far away at 0x80. -/
def mem_gap : Mem := fun a =>
  if a = 0x10 then some 1
  else if a = 0x11 then some 2
  else if a = 0x80 then some 0
  else none

/-- The classifications and continuation address produced by `stringz`
on `mem_gap` starting at 0x10: a 0x71-byte string run covering
0x10-0x80 and the continuation address 0x81. -/
def stringz_gap_out : Cls × Int :=
  ((add_classification cls_empty 0x10 (.str 0x71)).getD cls_empty, 0x81)

/-- Memory whose only loaded bytes are 1, 2 at 0x10-0x11 and which
holds no zero byte anywhere. -/
def mem_nozero : Mem := fun a =>
  if a = 0x10 then some 1 else if a = 0x11 then some 2 else none

/-- The labels map after adding the name "a1" at 0x2000 in the initial
module state (no move id given, so it defaults to the base move id). -/
def labels_a1 : Labels :=
  (add_label initial_state labels_empty 0x2000 (some "a1") none true).getD
    labels_empty

/-- The labels map after adding the non-simple name "l1+2" at 0x30
under move id 1, which is valid in `steal_state`. -/
def labels_expr : Labels :=
  (add_label steal_state labels_empty 0x30 (some "l1+2") (some 1)
    true).getD labels_empty

/-! ## Basic lemmas about array writes -/

theorem upd_eval {β : Type} (f : Int → β) (a : Int) (v : β) (x : Int) :
    upd f a v x = if x = a then v else f x := rfl

theorem set_range_eval (f : Int → Nat) (source : Int) (v : Nat)
    (n : Nat) (a : Int) :
    set_range f source v n a =
      if source ≤ a ∧ a < source + (n : Int) then v else f a := by
  induction n with
  | zero =>
      rw [set_range, if_neg]
      omega
  | succ n ih =>
      rw [set_range, upd_eval, ih]
      push_cast
      split_ifs <;> first | rfl | omega

/-! ## add_move and sequences of moves -/

theorem add_move_some (s : MoveState) (d src len : Int)
    (s' : MoveState) (id : Nat)
    (h : add_move s d src len = some (s', id)) :
    id = s.move_definitions.length ∧
    s'.move_definitions = s.move_definitions ++ [⟨d, src, len⟩] ∧
    s'.active_move_ids = s.active_move_ids ∧
    (∀ a : Int,
      s'.move_id_for_binary_addr a =
        if src ≤ a ∧ a < src + len then s.move_definitions.length
        else s.move_id_for_binary_addr a) ∧
    0 < len ∧ 0 ≤ src ∧ src + len ≤ 0x10000 ∧ 0 ≤ d ∧
    d + len ≤ 0x10000 ∧ d ≠ src := by
  unfold add_move at h
  split_ifs at h with hc
  simp only [is_valid_addr, decide_eq_true_eq] at hc
  obtain ⟨hd, hsrc, hdl, hsl, hne, hpos⟩ := hc
  simp only [Option.some.injEq, Prod.mk.injEq] at h
  obtain ⟨hs, hid⟩ := h
  subst hs
  refine ⟨?_, by simp, rfl, ?_, hpos, hsrc.1, hsl.2, hd.1, hdl.2, hne⟩
  · rw [← hid]
    simp
  · intro a
    dsimp only
    rw [set_range_eval, Int.toNat_of_nonneg (by omega)]
    simp only [List.length_append, List.length_singleton,
      Nat.add_sub_cancel]

theorem stealing_owner_some (moves : List MoveDef) :
    ∀ (a : Int) (i0 : Nat) (md : MoveDef) (i : Nat),
      stealing_owner moves a i0 = some (md, i) →
      i0 ≤ i ∧ moves[i - i0]? = some md ∧ md.owns a = true := by
  induction moves with
  | nil =>
      intro a i0 md i h
      simp [stealing_owner] at h
  | cons m rest ih =>
      intro a i0 md i h
      rw [stealing_owner] at h
      cases hso : stealing_owner rest a (i0 + 1) with
      | some r =>
          rw [hso] at h
          obtain ⟨hle, hget, howns⟩ := ih a (i0 + 1) md i (hso.trans h)
          refine ⟨by omega, ?_, howns⟩
          have : i - i0 = (i - (i0 + 1)) + 1 := by omega
          rw [this, List.getElem?_cons_succ]
          exact hget
      | none =>
          rw [hso] at h
          split_ifs at h with hw
          · simp only [Option.some.injEq, Prod.mk.injEq] at h
            obtain ⟨h1, h2⟩ := h
            subst h1; subst h2
            simp [hw]

theorem apply_moves_from_spec (moves : List MoveDef) :
    ∀ (s0 s : MoveState), apply_moves_from s0 moves = some s →
      s.move_definitions = s0.move_definitions ++ moves ∧
      s.active_move_ids = s0.active_move_ids ∧
      ∀ a : Int,
        s.move_id_for_binary_addr a =
          match stealing_owner moves a s0.move_definitions.length with
          | some (_, i) => i
          | none => s0.move_id_for_binary_addr a := by
  induction moves with
  | nil =>
      intro s0 s h
      rw [apply_moves_from] at h
      cases h
      exact ⟨by simp, rfl, fun a => by simp [stealing_owner]⟩
  | cons m rest ih =>
      intro s0 s h
      rw [apply_moves_from] at h
      cases hm : add_move s0 m.dest m.source m.length with
      | none => rw [hm] at h; cases h
      | some p =>
          obtain ⟨s1, id1⟩ := p
          rw [hm] at h
          obtain ⟨hid, hdefs, hact, howner, hpos, -, -, -, -, -⟩ :=
            add_move_some s0 m.dest m.source m.length s1 id1 hm
          obtain ⟨ihdefs, ihact, ihowner⟩ := ih s1 s h
          have hlen : s1.move_definitions.length =
              s0.move_definitions.length + 1 := by
            rw [hdefs]; simp
          refine ⟨?_, ihact.trans hact, ?_⟩
          · rw [ihdefs, hdefs]
            simp
          · intro a
            rw [ihowner a, hlen, stealing_owner]
            cases hso : stealing_owner rest a (s0.move_definitions.length + 1)
            case some r => rfl
            case none =>
                rw [howner a]
                have : m.owns a = true ↔ m.source ≤ a ∧ a < m.source + m.length := by
                  simp [MoveDef.owns]
                by_cases hw : m.source ≤ a ∧ a < m.source + m.length
                · rw [if_pos hw, if_pos (this.mpr hw)]
                · rw [if_neg hw, if_neg (by simpa [this] using hw)]

theorem initial_append_getElem_zero (moves : List MoveDef) :
    (initial_state.move_definitions ++ moves)[base_move_id]? =
      some base_def := by
  show ((base_def :: []) ++ moves)[(0 : Nat)]? = some base_def
  rw [List.cons_append, List.getElem?_cons_zero]

theorem reachable_coherent (s : MoveState) (h : Reachable s) :
    Coherent s := by
  obtain ⟨moves, active, s0, h0, rfl⟩ := h
  obtain ⟨hdefs, hact, howner⟩ := apply_moves_from_spec moves initial_state s0 h0
  constructor
  · show s0.move_definitions[base_move_id]? = some base_def
    rw [hdefs]
    exact initial_append_getElem_zero moves
  · intro a h1 h2
    show ∃ md, s0.move_definitions[s0.move_id_for_binary_addr a]? = some md ∧
      md.owns a = true
    rw [howner a]
    cases hso : stealing_owner moves a initial_state.move_definitions.length with
    | none =>
        refine ⟨base_def, ?_, ?_⟩
        · rw [hdefs]
          exact initial_append_getElem_zero moves
        · simp only [MoveDef.owns, base_def, decide_eq_true_eq]
          omega
    | some r =>
        obtain ⟨md, i⟩ := r
        obtain ⟨hle, hget, howns⟩ := stealing_owner_some moves a _ md i hso
        refine ⟨md, ?_, howns⟩
        rw [hdefs]
        have h1' : initial_state.move_definitions.length = 1 := rfl
        rw [h1'] at hle hget
        rw [List.getElem?_append_right (by simpa using hle)]
        simpa using hget

/-! ## C1: b2r computes dest + (binary - source) of the owning move -/

/-- C1: after any successful sequence of `add_move` calls, `b2r` is
total on binary addresses 0-0xFFFF and returns
`move_dest + (binary_addr - move_source)` for the move owning the
address, where later `add_move` calls steal source bytes from earlier
moves and unstolen addresses belong to the base move. -/
theorem b2r_owning_move (moves : List MoveDef) (s : MoveState)
    (h : apply_moves moves = some s) (a : Int)
    (h0 : 0 ≤ a) (h1 : a < 0x10000) :
    b2r s a =
      some (((stealing_owner moves a 1).getD (base_def, 0)).1.dest +
        (a - ((stealing_owner moves a 1).getD (base_def, 0)).1.source)) := by
  obtain ⟨hdefs, hact, howner⟩ := apply_moves_from_spec moves initial_state s h
  have hvalid : (is_valid_addr a ∧ a < 0x10000 : Prop) := by
    simp only [is_valid_addr, decide_eq_true_eq]
    omega
  rw [b2r, if_pos hvalid, howner a]
  have h1' : initial_state.move_definitions.length = 1 := rfl
  rw [h1']
  cases hso : stealing_owner moves a 1 with
  | none =>
      dsimp only
      have hbase : s.move_definitions[initial_state.move_id_for_binary_addr a]? =
          some base_def := by
        rw [hdefs]
        exact initial_append_getElem_zero moves
      rw [hbase]
      dsimp only
      rw [if_pos (show base_def.source ≤ a ∧ a < base_def.source + base_def.length
        by simp only [base_def]; omega)]
      rfl
  | some r =>
      obtain ⟨md, i⟩ := r
      obtain ⟨hle, hget, howns⟩ := stealing_owner_some moves a 1 md i hso
      dsimp only
      have hmd : s.move_definitions[i]? = some md := by
        rw [hdefs]
        rw [List.getElem?_append_right (by simpa using hle)]
        simpa using hget
      rw [hmd]
      dsimp only
      simp only [MoveDef.owns, decide_eq_true_eq] at howns
      rw [if_pos howns]
      rfl

/-- Witness for C1: after the two stealing moves, binary address 0x12
(stolen by the second move) maps to 0x80. -/
theorem b2r_owning_move_witness :
    apply_moves steal_moves = some steal_state ∧
    stealing_owner steal_moves 0x12 1 = some (⟨0x80, 0x12, 2⟩, 2) ∧
    b2r steal_state 0x12 =
      some (((stealing_owner steal_moves 0x12 1).getD (base_def, 0)).1.dest +
        (0x12 - ((stealing_owner steal_moves 0x12 1).getD
          (base_def, 0)).1.source)) :=
  ⟨rfl, by decide,
    b2r_owning_move steal_moves steal_state rfl 0x12 (by decide) (by decide)⟩

/-! ## C10: the add_move contract -/

/-- C10: `add_move` aborts exactly when dest = source, the length is
not strictly positive, or either of the source/destination ranges is
not contained in the 16-bit address space; on success it returns the
fresh move id (the next unused index of `move_definitions`). -/
theorem add_move_contract (s : MoveState) (dest source length : Int) :
    (add_move s dest source length = none ↔
      (dest = source ∨ length ≤ 0 ∨ dest < 0 ∨ source < 0 ∨
        0x10000 < dest + length ∨ 0x10000 < source + length)) ∧
    (∀ s' id, add_move s dest source length = some (s', id) →
      id = s.move_definitions.length ∧
      s'.move_definitions.length = s.move_definitions.length + 1) := by
  constructor
  · unfold add_move
    simp only [is_valid_addr, decide_eq_true_eq]
    split_ifs with h
    · simp only [reduceCtorEq, false_iff]
      omega
    · simp only [true_iff]
      omega
  · intro s' id h
    obtain ⟨hid, hdefs, -⟩ := add_move_some s dest source length s' id h
    exact ⟨hid, by rw [hdefs]; simp⟩

/-- Witness for C10: a concrete `add_move` onto the initial state
succeeds and returns move id 1, the next unused index. -/
theorem add_move_contract_witness :
    add_move initial_state 0x40 0x10 6 =
      some ((apply_moves [⟨0x40, 0x10, 6⟩]).getD initial_state, 1) ∧
    (1 : Nat) = initial_state.move_definitions.length ∧
    ((apply_moves [⟨0x40, 0x10, 6⟩]).getD
        initial_state).move_definitions.length =
      initial_state.move_definitions.length + 1 := by
  refine ⟨rfl, ?_⟩
  exact (add_move_contract initial_state 0x40 0x10 6).2 _ 1 rfl

/-! ## Lemmas about the r2b scan -/

theorem b2r_coherent (s : MoveState) (hco : Coherent s) (a : Int)
    (h0 : 0 ≤ a) (h1 : a < 0x10000) :
    ∃ md, s.move_definitions[s.move_id_for_binary_addr a]? = some md ∧
      md.owns a = true ∧ b2r s a = some (md.dest + (a - md.source)) := by
  obtain ⟨md, hmd, howns⟩ := hco.2 a h0 h1
  refine ⟨md, hmd, howns, ?_⟩
  rw [b2r, if_pos ⟨by simp [is_valid_addr]; omega, h1⟩, hmd]
  dsimp only
  simp only [MoveDef.owns, decide_eq_true_eq] at howns
  rw [if_pos howns]

theorem collect_ids_mem (s : MoveState) (r : Int) :
    ∀ (n : Nat) (l : List Nat), collect_ids s r n = some l →
      ∀ m : Nat, m ∈ l ↔ (m ≠ base_move_id ∧
        ∃ b : Nat, b < n ∧ s.move_id_for_binary_addr (b : Int) = m ∧
          b2r s (b : Int) = some r) := by
  intro n
  induction n with
  | zero =>
      intro l h m
      rw [collect_ids] at h
      cases h
      simp
  | succ n ih =>
      intro l h m
      rw [collect_ids] at h
      cases hacc : collect_ids s r n with
      | none => rw [hacc] at h; cases h
      | some acc =>
          rw [hacc] at h
          dsimp only at h
          have ihm := ih acc hacc m
          by_cases hnz : s.move_id_for_binary_addr ((n : Nat) : Int) ≠ base_move_id
          · rw [if_pos hnz] at h
            cases hb : b2r s ((n : Nat) : Int) with
            | none => rw [hb] at h; cases h
            | some rn =>
                rw [hb] at h
                dsimp only at h
                by_cases hr : rn = r
                · rw [if_pos hr] at h
                  cases h
                  subst hr
                  constructor
                  · intro hm
                    rcases List.mem_append.mp hm with hm1 | hm2
                    · obtain ⟨hm0, b, hblt, hbo, hbr⟩ := ihm.mp hm1
                      exact ⟨hm0, b, by omega, hbo, hbr⟩
                    · have hm' : m = s.move_id_for_binary_addr (n : Int) :=
                        List.mem_singleton.mp hm2
                      exact ⟨hm' ▸ hnz, n, by omega, hm'.symm, hb⟩
                  · rintro ⟨hm0, b, hblt, hbo, hbr⟩
                    rcases Nat.lt_succ_iff_lt_or_eq.mp hblt with hbn | hbn
                    · exact List.mem_append.mpr
                        (Or.inl (ihm.mpr ⟨hm0, b, hbn, hbo, hbr⟩))
                    · subst hbn
                      exact List.mem_append.mpr
                        (Or.inr (List.mem_singleton.mpr hbo.symm))
                · rw [if_neg hr] at h
                  cases h
                  rw [ihm]
                  constructor
                  · rintro ⟨hm0, b, hblt, hbo, hbr⟩
                    exact ⟨hm0, b, by omega, hbo, hbr⟩
                  · rintro ⟨hm0, b, hblt, hbo, hbr⟩
                    refine ⟨hm0, b, ?_, hbo, hbr⟩
                    rcases Nat.lt_succ_iff_lt_or_eq.mp hblt with hbn | hbn
                    · exact hbn
                    · subst hbn
                      rw [hbr] at hb
                      cases hb
                      exact absurd rfl hr
          · rw [if_neg hnz] at h
            cases h
            rw [ihm]
            push_neg at hnz
            constructor
            · rintro ⟨hm0, b, hblt, hbo, hbr⟩
              exact ⟨hm0, b, by omega, hbo, hbr⟩
            · rintro ⟨hm0, b, hblt, hbo, hbr⟩
              refine ⟨hm0, b, ?_, hbo, hbr⟩
              rcases Nat.lt_succ_iff_lt_or_eq.mp hblt with hbn | hbn
              · exact hbn
              · subst hbn
                rw [hbo] at hnz
                exact absurd hnz hm0

theorem collect_ids_skip (s : MoveState) (r : Int) (lo : Nat) :
    ∀ n : Nat, lo ≤ n →
      (∀ b : Nat, lo ≤ b → b < n →
        s.move_id_for_binary_addr (b : Int) = base_move_id) →
      collect_ids s r n = collect_ids s r lo := by
  intro n
  induction n with
  | zero =>
      intro hle _
      have : lo = 0 := by omega
      rw [this]
  | succ n ih =>
      intro hle hz
      by_cases he : lo = n + 1
      · rw [he]
      · have hle' : lo ≤ n := by omega
        have hzn := hz n hle' (by omega)
        rw [collect_ids, ih hle' (fun b hb1 hb2 => hz b hb1 (by omega))]
        cases hc : collect_ids s r lo with
        | none => rfl
        | some acc => simp [hzn]

theorem collect_ids_const_zero (s : MoveState) (r : Int)
    (h : ∀ a : Int, s.move_id_for_binary_addr a = base_move_id) (n : Nat) :
    collect_ids s r n = some [] := by
  rw [collect_ids_skip s r 0 n (by omega) (fun b _ _ => h b)]
  rfl

theorem r2b_base_only (s : MoveState)
    (h : ∀ a : Int, s.move_id_for_binary_addr a = base_move_id)
    (r : Int) (hr : is_valid_addr r = true) :
    r2b s r = some (.resolved r base_move_id) := by
  rw [r2b, move_ids_for_runtime_addr, if_pos hr,
    collect_ids_const_zero s r h]

/-! ## Concrete evaluation of the steal state -/

theorem steal_state_moves : apply_moves steal_moves = some steal_state := rfl

theorem steal_state_owner_fun :
    steal_state.move_id_for_binary_addr =
      set_range (set_range initial_state.move_id_for_binary_addr 0x10 1 6)
        0x12 2 2 := rfl

theorem steal_state_owner_high (b : Nat) (h1 : 0x16 ≤ b) :
    steal_state.move_id_for_binary_addr (b : Int) = base_move_id := by
  rw [steal_state_owner_fun, set_range_eval, set_range_eval,
    if_neg (by push_cast; omega), if_neg (by push_cast; omega)]
  rfl

theorem steal_state_ids (r : Int) (hr : is_valid_addr r = true) :
    move_ids_for_runtime_addr steal_state r =
      collect_ids steal_state r 0x16 := by
  rw [move_ids_for_runtime_addr, if_pos hr]
  exact collect_ids_skip steal_state r 0x16 0x10000 (by omega)
    (fun b hb1 _ => steal_state_owner_high b hb1)

/-! ## C2: the r2b algorithm -/

/-- Counterexample for C2 as stated: at runtime address 0x42 the code's
`r2b` returns the default `(0x42, base)`, because the source byte of
the first move that would map to 0x42 was stolen by the second move;
the claim's algorithm ("every move id whose destination range covers
the runtime address") instead selects move 1 and returns `(0x12, 1)`. -/
theorem r2b_claim_counterexample :
    r2b steal_state 0x42 = some (.resolved 0x42 base_move_id) ∧
    claim_r2b steal_state 0x42 = some (.resolved 0x12 1) ∧
    r2b steal_state 0x42 ≠ claim_r2b steal_state 0x42 := by
  have h1 : r2b steal_state 0x42 = some (.resolved 0x42 base_move_id) := by
    rw [r2b, steal_state_ids 0x42 (by decide),
      show collect_ids steal_state 0x42 0x16 = some [] from by decide]
  refine ⟨h1, by decide, ?_⟩
  rw [h1]
  decide

/-- C2 (amended): the relevant set of `r2b` consists of the move ids
that still own (after stealing) a binary address whose `b2r` image is
the runtime address — destination-range coverage computed over
non-stolen source bytes.  With that set the algorithm is as the claim
states: an empty set returns the default `(runtime, base)`; a singleton
set selects its move; a larger set selects the topmost matching member
of `active_move_ids`, or returns unresolved when none matches; a
selected move translates the runtime address back to the binary address
it owns. -/
theorem r2b_algorithm (s : MoveState) (r : Int) (ids : List Nat)
    (hreach : Reachable s)
    (hids : move_ids_for_runtime_addr s r = some ids) :
    (∀ m : Nat, m ∈ ids ↔ (m ≠ base_move_id ∧
      ∃ b : Int, 0 ≤ b ∧ b < 0x10000 ∧
        s.move_id_for_binary_addr b = m ∧ b2r s b = some r)) ∧
    (ids = [] → r2b s r = some (.resolved r base_move_id)) ∧
    (∀ (m : Nat) (b : Int), ids = [m] → 0 ≤ b → b < 0x10000 →
      s.move_id_for_binary_addr b = m → b2r s b = some r →
      r2b s r = some (.resolved b m)) ∧
    (2 ≤ ids.length →
      (s.active_move_ids.reverse.find? (· ∈ ids) = none →
        r2b s r = some .unresolved) ∧
      ∀ (m : Nat) (b : Int),
        s.active_move_ids.reverse.find? (· ∈ ids) = some m →
        0 ≤ b → b < 0x10000 → s.move_id_for_binary_addr b = m →
        b2r s b = some r → r2b s r = some (.resolved b m)) := by
  have hcoh := reachable_coherent s hreach
  have hvr : is_valid_addr r = true := by
    by_contra hv
    rw [move_ids_for_runtime_addr, if_neg (by simpa using hv)] at hids
    cases hids
  have hcol : collect_ids s r 0x10000 = some ids := by
    rw [move_ids_for_runtime_addr, if_pos (by simpa using hvr)] at hids
    exact hids
  have hsel : ∀ (m : Nat) (b : Int), 0 ≤ b → b < 0x10000 →
      s.move_id_for_binary_addr b = m → b2r s b = some r →
      ∃ md, s.move_definitions[m]? = some md ∧
        (md.dest ≤ r ∧ r < md.dest + md.length) ∧
        md.source + (r - md.dest) = b := by
    intro m b h0 h1 hob hbr
    obtain ⟨md, hmd, howns, hval⟩ := b2r_coherent s hcoh b h0 h1
    rw [hob] at hmd
    simp only [MoveDef.owns, decide_eq_true_eq] at howns
    rw [hval] at hbr
    injection hbr with he
    exact ⟨md, hmd, ⟨by omega, by omega⟩, by omega⟩
  refine ⟨?_, ?_, ?_, ?_⟩
  · intro m
    rw [collect_ids_mem s r 0x10000 ids hcol m]
    constructor
    · rintro ⟨hm0, b, hblt, hbo, hbr⟩
      exact ⟨hm0, (b : Int), by omega, by exact_mod_cast hblt, hbo, hbr⟩
    · rintro ⟨hm0, b, hb0, hb1, hbo, hbr⟩
      refine ⟨hm0, b.toNat, by omega, ?_, ?_⟩
      · rw [Int.toNat_of_nonneg hb0]; exact hbo
      · rw [Int.toNat_of_nonneg hb0]; exact hbr
  · intro he
    subst he
    rw [r2b, hids]
  · intro m b he hb0 hb1 hbo hbr
    subst he
    obtain ⟨md, hmd, hrange, hback⟩ := hsel m b hb0 hb1 hbo hbr
    rw [r2b, hids]
    dsimp only
    rw [if_pos (show ([m].length = 1) by simp), List.head?_cons]
    dsimp only
    rw [hmd]
    dsimp only
    rw [if_pos hrange, hback]
  · intro hlen
    obtain ⟨a0, tl0, rfl⟩ : ∃ a0 tl0, ids = a0 :: tl0 := by
      cases ids with
      | nil => simp at hlen
      | cons a tl => exact ⟨a, tl, rfl⟩
    have hne1 : ¬ ((a0 :: tl0).length = 1) := by
      simp only [List.length_cons] at hlen ⊢
      omega
    constructor
    · intro hf
      rw [r2b, hids]
      dsimp only
      rw [if_neg hne1, hf]
    · intro m b hf hb0 hb1 hbo hbr
      obtain ⟨md, hmd, hrange, hback⟩ := hsel m b hb0 hb1 hbo hbr
      rw [r2b, hids]
      dsimp only
      rw [if_neg hne1, hf]
      dsimp only
      rw [hmd]
      dsimp only
      rw [if_pos hrange, hback]

/-- Witness for C2 (amended): at runtime address 0x40 the steal state
has the singleton relevant set {1}, and r2b translates back to the
owned binary address 0x10 of move 1. -/
theorem r2b_algorithm_witness :
    move_ids_for_runtime_addr steal_state 0x40 = some [1] ∧
    steal_state.move_id_for_binary_addr 0x10 = 1 ∧
    b2r steal_state 0x10 = some 0x40 ∧
    r2b steal_state 0x40 = some (.resolved 0x10 1) := by
  have hreach : Reachable steal_state :=
    ⟨steal_moves, [], steal_state, steal_state_moves, rfl⟩
  have hids : move_ids_for_runtime_addr steal_state 0x40 = some [1] := by
    rw [steal_state_ids 0x40 (by decide)]
    decide
  refine ⟨hids, by decide, by decide, ?_⟩
  exact (r2b_algorithm steal_state 0x40 [1] hreach hids).2.2.1 1 0x10 rfl
    (by decide) (by decide) (by decide) (by decide)

/-! ## C9: the r2b / b2r round trip -/

/-- Counterexample for C9 as stated: in the default case the round trip
can fail.  Runtime address 0x10 is covered by no move destination, so
`r2b` returns `(0x10, base)`; but binary address 0x10 is owned by move
1, so `b2r` maps it to 0x40, not back to 0x10. -/
theorem r2b_b2r_roundtrip_counterexample :
    r2b steal_state 0x10 = some (.resolved 0x10 base_move_id) ∧
    b2r steal_state 0x10 = some 0x40 ∧
    b2r steal_state 0x10 ≠ some 0x10 := by
  have h1 : r2b steal_state 0x10 = some (.resolved 0x10 base_move_id) := by
    rw [r2b, steal_state_ids 0x10 (by decide),
      show collect_ids steal_state 0x10 0x16 = some [] from by decide]
  exact ⟨h1, by decide, by decide⟩

/-- C9 (amended): whenever `r2b` resolves through an actual move (a
non-base move id) the round trip holds: `b2r` maps the returned binary
address back to the runtime address.  In the default case (base move
id, returned binary address equal to the runtime address) the round
trip holds when the runtime address's own binary byte is still owned by
the base move. -/
theorem r2b_b2r_roundtrip (s : MoveState) (r b : Int) (m : Nat)
    (hreach : Reachable s)
    (h : r2b s r = some (.resolved b m)) :
    (m ≠ base_move_id → b2r s b = some r) ∧
    (m = base_move_id → 0 ≤ r → r < 0x10000 →
      s.move_id_for_binary_addr r = base_move_id → b2r s b = some r) := by
  have hcoh := reachable_coherent s hreach
  rw [r2b] at h
  cases hmv : move_ids_for_runtime_addr s r with
  | none => rw [hmv] at h; cases h
  | some ids =>
    rw [hmv] at h
    have hcol : collect_ids s r 0x10000 = some ids := by
      have hvr : is_valid_addr r = true := by
        by_contra hv
        rw [move_ids_for_runtime_addr, if_neg (by simpa using hv)] at hmv
        cases hmv
      rw [move_ids_for_runtime_addr, if_pos (by simpa using hvr)] at hmv
      exact hmv
    cases ids with
    | nil =>
        dsimp only at h
        simp only [Option.some.injEq, R2BResult.resolved.injEq] at h
        obtain ⟨hrb, hm⟩ := h
        subst hrb
        constructor
        · intro hm0
          exact absurd hm.symm hm0
        · intro _ h0 h1 hor
          rw [b2r, if_pos ⟨by simp only [is_valid_addr, decide_eq_true_eq]; omega, h1⟩,
            hor, hcoh.1]
          dsimp only
          rw [if_pos (show base_def.source ≤ r ∧ r < base_def.source + base_def.length
            by simp only [base_def]; omega)]
          show some (base_def.dest + (r - base_def.source)) = some r
          simp only [base_def]
          norm_num
    | cons a0 tl0 =>
        dsimp only at h
        cases hselv : (if (a0 :: tl0).length = 1 then (a0 :: tl0).head?
            else s.active_move_ids.reverse.find? (· ∈ a0 :: tl0)) with
        | none => rw [hselv] at h; simp at h
        | some m' =>
            rw [hselv] at h
            dsimp only at h
            cases hmd : s.move_definitions[m']? with
            | none => rw [hmd] at h; cases h
            | some md =>
                rw [hmd] at h
                dsimp only at h
                by_cases hrange : md.dest ≤ r ∧ r < md.dest + md.length
                · rw [if_pos hrange] at h
                  simp only [Option.some.injEq, R2BResult.resolved.injEq] at h
                  obtain ⟨hb, hm⟩ := h
                  subst hm
                  have hmem : m' ∈ a0 :: tl0 := by
                    by_cases hl : (a0 :: tl0).length = 1
                    · rw [if_pos hl] at hselv
                      rw [List.head?_cons] at hselv
                      injection hselv with hselv'
                      rw [← hselv']
                      exact List.mem_cons_self a0 tl0
                    · rw [if_neg hl] at hselv
                      have := List.find?_some hselv
                      simpa using this
                  obtain ⟨hm0, b', hblt', hbo', hbr'⟩ :=
                    (collect_ids_mem s r 0x10000 (a0 :: tl0) hcol m').mp hmem
                  obtain ⟨md2, hmd2, howns2, hval2⟩ :=
                    b2r_coherent s hcoh (b' : Int) (by omega)
                      (by exact_mod_cast hblt')
                  rw [hbo', hmd] at hmd2
                  injection hmd2 with hmd2'
                  rw [← hmd2'] at hval2
                  rw [hval2] at hbr'
                  injection hbr' with he'
                  have hbb : ((b' : Nat) : Int) = b := by omega
                  constructor
                  · intro _
                    rw [← hbb, hval2, he']
                  · intro hmeq
                    exact absurd hmeq hm0
                · rw [if_neg hrange] at h
                  cases h

/-- Witness for C9 (amended): on the initial state every runtime
address resolves to itself under the base move, and `b2r` maps it
straight back. -/
theorem r2b_b2r_roundtrip_witness :
    Reachable initial_state ∧
    r2b initial_state 0x123 = some (.resolved 0x123 base_move_id) ∧
    b2r initial_state 0x123 = some 0x123 := by
  have hreach : Reachable initial_state :=
    ⟨[], [], initial_state, rfl, rfl⟩
  have h : r2b initial_state 0x123 = some (.resolved 0x123 base_move_id) :=
    r2b_base_only initial_state (fun _ => rfl) 0x123 (by decide)
  exact ⟨hreach, h,
    (r2b_b2r_roundtrip initial_state 0x123 0x123 base_move_id hreach h).2
      rfl (by decide) (by decide) rfl⟩

/-! ## C4 and C5: tracer successors -/

theorem b2r_some_facts (s : MoveState) (a rt : Int)
    (h : b2r s a = some rt) :
    0 ≤ a ∧ a < 0x10000 ∧
      is_valid_move_id s (s.move_id_for_binary_addr a) = true := by
  rw [b2r] at h
  split_ifs at h with hc
  obtain ⟨hva, hlt⟩ := hc
  simp only [is_valid_addr, decide_eq_true_eq] at hva
  refine ⟨by omega, hlt, ?_⟩
  cases hmd : s.move_definitions[s.move_id_for_binary_addr a]? with
  | none => rw [hmd] at h; cases h
  | some md =>
      have hlen := List.getElem?_eq_some.mp hmd
      simp only [is_valid_move_id, decide_eq_true_eq]
      right
      exact hlen.1

/-- C4: for every conditional-branch opcode at binary address `addr`,
the target is `b2r(addr) + 2 + signed8(operand)` with signed 8-bit
arithmetic (operands 0x80-0xFF count as `i - 256`), and the successor
list is `[addr + 2]` followed by the result of translating the target
back to a binary address under the move owning `addr`; when that
translation resolves to binary address `b` the successors are exactly
`addr + 2` and `b`. -/
theorem condbranch_successors (s : MoveState) (mem : Mem) (hooks : Hooks)
    (o : Opc) (v : Int) (addr rt op : Int)
    (_hv : opcodes v = some o) (hmode : o.mode = .condBranch)
    (hrt : b2r s addr = some rt)
    (hop : get_u8 mem (addr + 1) = some op)
    (h0 : 0 ≤ op) (h255 : op ≤ 255) :
    condbranch_target s mem addr =
      some (rt + 2 + (if 0x80 ≤ op then op - 256 else op)) ∧
    opc_disassemble o s mem hooks addr =
      (apply_move2 s (rt + 2 + (if 0x80 ≤ op then op - 256 else op))
          addr).map
        (fun l => some (addr + 2) :: l.map some) ∧
    (∀ (b : Int) (m : Nat),
      r2b (with_active s (s.active_move_ids ++
          [s.move_id_for_binary_addr addr]))
          (rt + 2 + (if 0x80 ≤ op then op - 256 else op)) =
        some (.resolved b m) →
      opc_disassemble o s mem hooks addr =
        some [some (addr + 2), some b]) := by
  obtain ⟨ha0, ha1, hvm⟩ := b2r_some_facts s addr rt hrt
  have hsg : signed8 op = some (if 0x80 ≤ op then op - 256 else op) := by
    rw [signed8, if_pos ⟨h0, h255⟩]
  have htg : condbranch_target s mem addr =
      some (rt + 2 + (if 0x80 ≤ op then op - 256 else op)) := by
    rw [condbranch_target, hrt]
    dsimp only
    rw [hop]
    dsimp only
    rw [hsg]
  have hdis : opc_disassemble o s mem hooks addr =
      (apply_move2 s (rt + 2 + (if 0x80 ≤ op then op - 256 else op))
          addr).map
        (fun l => some (addr + 2) :: l.map some) := by
    rw [opc_disassemble, hmode]
    dsimp only
    rw [htg]
    dsimp only
    cases happ : apply_move2 s
        (rt + 2 + (if 0x80 ≤ op then op - 256 else op)) addr with
    | none => rfl
    | some l => rfl
  refine ⟨htg, hdis, ?_⟩
  intro b m hr2b
  rw [hdis, apply_move2, if_pos ⟨ha0, ha1⟩, moved_apply_move,
    if_pos hvm, apply_move, hr2b]
  rfl

/-- Witness for C4: `BNE -2` at binary address 0x20 on the initial
state has the successors 0x22 and 0x20. -/
theorem condbranch_successors_witness :
    opcodes 0xd0 = some ⟨"BNE", .condBranch, 1⟩ ∧
    b2r initial_state 0x20 = some 0x20 ∧
    get_u8 mem_bne 0x21 = some 0xfe ∧
    opc_disassemble ⟨"BNE", .condBranch, 1⟩ initial_state mem_bne
      hooks_empty 0x20 = some [some 0x22, some 0x20] := by
  refine ⟨by decide, by decide, by decide, ?_⟩
  have hpush : r2b (with_active initial_state
      (initial_state.active_move_ids ++
        [initial_state.move_id_for_binary_addr 0x20]))
      ((0x20 : Int) + 2 + (if (0x80 : Int) ≤ 0xfe then 0xfe - 256 else 0xfe)) =
      some (.resolved ((0x20 : Int) + 2 +
        (if (0x80 : Int) ≤ 0xfe then 0xfe - 256 else 0xfe)) base_move_id) :=
    r2b_base_only _ (fun _ => rfl) _ (by decide)
  have h := (condbranch_successors initial_state mem_bne hooks_empty
    ⟨"BNE", .condBranch, 1⟩ 0xd0 0x20 0x20 0xfe (by decide) rfl (by decide)
    (by decide) (by decide) (by decide)).2.2 _ base_move_id hpush
  rw [h]
  norm_num

/-- C5: the continuation after a JSR is decided by the hook keyed on
the target runtime address (the default hook returns `caller + 3` when
its sanity assert holds); a `None` result means no fall-through; a
runtime result that `apply_move`/`r2b` cannot resolve continues at
`addr + 3` iff `b2r(addr + 3)` equals the returned runtime address and
otherwise stops; and the translation of the call target is appended to
the successors in every case. -/
theorem jsr_successors (s : MoveState) (mem : Mem) (hooks : Hooks)
    (addr target caller : Int) (tl : List Int)
    (ht : get_u16 mem (addr + 1) = some target)
    (hc : b2r s addr = some caller)
    (htl : apply_move s target = some tl) :
    (hooks target = none →
      ∀ m0 : Nat, r2b_checked (with_active s (s.active_move_ids ++
          [s.move_id_for_binary_addr addr])) caller = some (addr, m0) →
      jsr_effective_hook s hooks addr target target caller =
        some (some (caller + 3))) ∧
    (jsr_effective_hook s hooks addr target target caller = some none →
      jsr_disassemble s mem hooks addr =
        some ([none] ++ tl.map some)) ∧
    (∀ (ret b : Int) (l' : List Int),
      jsr_effective_hook s hooks addr target target caller =
        some (some ret) →
      apply_move s ret = some (b :: l') →
      jsr_disassemble s mem hooks addr =
        some ([some b] ++ tl.map some)) ∧
    (∀ ret : Int,
      jsr_effective_hook s hooks addr target target caller =
        some (some ret) →
      apply_move s ret = some [] → b2r s (addr + 3) = some ret →
      jsr_disassemble s mem hooks addr =
        some ([some (addr + 3)] ++ tl.map some)) ∧
    (∀ ret : Int,
      jsr_effective_hook s hooks addr target target caller =
        some (some ret) →
      apply_move s ret = some [] → ¬ (b2r s (addr + 3) = some ret) →
      jsr_disassemble s mem hooks addr =
        some ([none] ++ tl.map some)) := by
  obtain ⟨ha0, ha1, hvm⟩ := b2r_some_facts s addr caller hc
  have hpre : ∀ (ret : Option Int) (core : List (Option Int)),
      jsr_effective_hook s hooks addr target target caller = some ret →
      jsr_core s addr ret = some core →
      jsr_disassemble s mem hooks addr = some (core ++ tl.map some) := by
    intro ret core hres hcore
    rw [jsr_disassemble, ht]
    dsimp only
    rw [hc]
    dsimp only
    rw [if_pos ⟨ha0, ha1⟩, if_pos hvm, hres]
    dsimp only
    rw [hcore]
    dsimp only
    rw [htl]
  refine ⟨?_, ?_, ?_, ?_, ?_⟩
  · intro hnone m0 hchk
    rw [jsr_effective_hook, hnone, Option.getD_none, simple_jsr_hook, hchk]
    dsimp only
    rw [if_pos rfl]
  · intro hres
    exact hpre none [none] hres rfl
  · intro ret b l' hres happ
    refine hpre (some ret) [some b] hres ?_
    rw [jsr_core, happ]
  · intro ret hres happ hb3
    refine hpre (some ret) [some (addr + 3)] hres ?_
    rw [jsr_core, happ]
    dsimp only
    rw [if_pos hb3]
  · intro ret hres happ hb3
    refine hpre (some ret) [none] hres ?_
    rw [jsr_core, happ]
    dsimp only
    rw [if_neg hb3]

/-- Witness for C5: `JSR 0x9000` at 0x40 on the initial state with no
registered hooks: the default hook returns 0x43, and the successors
are 0x43 and the call target 0x9000. -/
theorem jsr_successors_witness :
    get_u16 mem_jsr 0x41 = some 0x9000 ∧
    b2r initial_state 0x40 = some 0x40 ∧
    jsr_disassemble initial_state mem_jsr hooks_empty 0x40 =
      some [some 0x43, some 0x9000] := by
  have hbase : ∀ r : Int, is_valid_addr r = true →
      apply_move initial_state r = some [r] := by
    intro r hr
    rw [apply_move, r2b_base_only initial_state (fun _ => rfl) r hr]
  have htl : apply_move initial_state 0x9000 = some [0x9000] :=
    hbase 0x9000 (by decide)
  have hthm := jsr_successors initial_state mem_jsr hooks_empty 0x40 0x9000
    0x40 [0x9000] (by decide) (by decide) htl
  have hchk : r2b_checked (with_active initial_state
      (initial_state.active_move_ids ++
        [initial_state.move_id_for_binary_addr 0x40])) 0x40 =
      some (0x40, base_move_id) := by
    rw [r2b_checked, r2b_base_only _ (fun _ => rfl) 0x40 (by decide)]
  have hhook := hthm.1 rfl base_move_id hchk
  have happ : apply_move initial_state ((0x40 : Int) + 3) =
      some [(0x40 : Int) + 3] := hbase _ (by decide)
  have h := hthm.2.2.1 ((0x40 : Int) + 3) ((0x40 : Int) + 3) [] hhook happ
  refine ⟨by decide, by decide, ?_⟩
  rw [h]
  norm_num

/-! ## C3: double classification is fatal; tracer overlap is advisory -/

/-- C3: classifying a byte that is already classified is a fatal
contract violation: `add_classification` aborts on any overlap with an
existing classification.  The sole exception is the tracer decoding an
instruction over already-classified bytes: it records an advisory
overlapping annotation, stores nothing, and leaves the classifications
array unchanged (the returned state keeps `st.cls`). -/
theorem classify_overlap_fatal :
    (∀ (cls : Cls) (addr : Int) (c : Classification),
      is_classified cls addr c.clength = true →
      add_classification cls addr c = none) ∧
    (∀ (st : DisState) (s : MoveState) (mem : Mem) (hooks : Hooks)
        (addr v : Int) (o : Opc) (succ : List (Option Int)),
      0 ≤ addr → addr < 0x10000 →
      mem addr = some v → opcodes v = some o →
      is_classified st.cls addr (1 + (o.operand_length : Int)) = true →
      opc_disassemble o s mem hooks addr = some succ →
      disassemble_instruction st s mem hooks addr =
        some ({ st with annots := st.annots ++
          [(addr, .overlapping (1 + o.operand_length))] }, succ)) := by
  constructor
  · intro cls addr c hover
    by_cases hb : (0 ≤ addr ∧ addr < 0x10000)
    · rw [add_classification, if_pos hb, if_pos hover]
    · rw [add_classification, if_neg hb]
  · intro st s mem hooks addr v o succ h0 h1 hv ho hover hdis
    rw [disassemble_instruction, if_pos ⟨h0, h1⟩, hv]
    rw [show (some v >>= opcodes) = opcodes v from rfl, ho]
    dsimp only
    rw [if_pos hover, hdis]

/-- Witness for C3: a NOP decoded at 0x30 inside an existing 3-byte
data run is emitted as an advisory annotation without touching the
classifications, while a direct `add_classification` there aborts. -/
theorem classify_overlap_fatal_witness :
    is_classified cls_word 0x30 ((Classification.instr 0).clength) = true ∧
    add_classification cls_word 0x30 (.instr 0) = none ∧
    disassemble_instruction dis_word initial_state mem_nop hooks_empty
      0x30 =
      some ({ dis_word with
        annots := dis_word.annots ++ [(0x30, .overlapping 1)] },
        [some 0x31]) := by
  refine ⟨by decide, ?_, ?_⟩
  · exact classify_overlap_fatal.1 cls_word 0x30 (.instr 0) (by decide)
  · exact classify_overlap_fatal.2 dis_word initial_state mem_nop
      hooks_empty 0x30 0xea ⟨"NOP", .implied, 0⟩ [some 0x31] (by decide)
      (by decide) (by decide) (by decide) (by decide) (by decide)

/-! ## C6: the classifications-array invariant -/

theorem write_inside_eval (cls : Cls) (addr : Int) (n : Nat) (x : Int) :
    write_inside cls addr n x =
      if addr + 1 ≤ x ∧ x ≤ addr + (n : Int) then CEntry.inside
      else cls x := by
  induction n with
  | zero =>
      rw [write_inside, if_neg]
      omega
  | succ n ih =>
      rw [write_inside, upd_eval, ih]
      push_cast
      split_ifs <;> first | rfl | omega

theorem add_classification_some (cls : Cls) (addr : Int)
    (c : Classification) (cls' : Cls)
    (h : add_classification cls addr c = some cls') :
    0 ≤ addr ∧ addr < 0x10000 ∧ addr + c.clength ≤ 0x10000 ∧
    is_classified cls addr c.clength = false ∧
    ∀ x : Int, cls' x =
      if x = addr then .cls c
      else if addr + 1 ≤ x ∧ x ≤ addr + (c.clength - 1) then .inside
      else cls x := by
  rw [add_classification] at h
  split_ifs at h with h1 h2 h3
  injection h with h'
  refine ⟨h1.1, h1.2, h3, by simpa using h2, ?_⟩
  intro x
  rw [← h', write_inside_eval, upd_eval]
  split_ifs <;> first | rfl | omega

theorem scan_back_eq (cls : Cls) (a0 : Int) :
    ∀ (fuel : Nat) (a : Int), cls a0 ≠ .inside →
      (∀ x : Int, a0 < x → x ≤ a → cls x = .inside) →
      a0 ≤ a → (a - a0).toNat < fuel →
      scan_back cls a fuel = a0 := by
  intro fuel
  induction fuel with
  | zero =>
      intro a _ _ _ hfuel
      omega
  | succ n ih =>
      intro a hns hall hle hfuel
      rw [scan_back]
      by_cases he : a = a0
      · subst he
        rw [if_neg hns]
      · have hin : cls a = .inside := hall a (by omega) le_rfl
        rw [if_pos hin]
        exact ih (a - 1) hns (fun x hx1 hx2 => hall x hx1 (by omega))
          (by omega) (by omega)

/-- C6: the classifications-array invariant - every stored
classification has positive length and is followed by sentinel slots up
to its length, its one-past-the-end slot is never one of its sentinels
(it is unclassified or the start of another classification), and every
sentinel is covered by a stored classification - holds for the empty
array, is established by `add_classification` and is preserved by
`split_classification`. -/
theorem classification_wf_invariant :
    ClsWF cls_empty ∧
    (∀ (cls : Cls) (addr : Int) (c : Classification) (cls' : Cls),
      ClsWF cls → 0 < c.clength →
      add_classification cls addr c = some cls' → ClsWF cls') ∧
    (∀ (cls : Cls) (addr : Int) (cls' : Cls),
      ClsWF cls → 0 ≤ addr →
      split_classification cls addr = some cls' → ClsWF cls') := by
  refine ⟨⟨?_, ?_, ?_⟩, ?_, ?_⟩
  · intro a c h
    simp [cls_empty] at h
  · intro p h
    simp [cls_empty] at h
  · intro a _
    rfl
  · -- add_classification preserves the invariant
    intro cls addr c cls' hwf hlen hadd
    obtain ⟨h0, h1, h2, hncls, heval⟩ :=
      add_classification_some cls addr c cls' hadd
    obtain ⟨hwf1, hwf2, hwf3⟩ := hwf
    have hun : ∀ x : Int, addr ≤ x → x < addr + c.clength →
        cls x = .unclassified := by
      intro x hx1 hx2
      by_contra hne
      have hcl : is_classified cls addr c.clength = true := by
        rw [is_classified, List.any_eq_true]
        refine ⟨(x - addr).toNat, List.mem_range.mpr (by omega), ?_⟩
        simp only [Bool.and_eq_true, decide_eq_true_eq]
        have hxx : addr + (((x - addr).toNat) : Int) = x := by omega
        rw [hxx]
        exact ⟨by omega, hne⟩
      rw [hcl] at hncls
      cases hncls
    refine ⟨?_, ?_, ?_⟩
    · intro a c2 ha
      rw [heval a] at ha
      by_cases hx : a = addr
      · rw [if_pos hx] at ha
        injection ha with hc2
        subst hc2
        refine ⟨hlen, ?_, ?_⟩
        · intro i hi1 hi2
          rw [heval, if_neg (by omega), if_pos (by omega)]
        · rw [heval, if_neg (by omega), if_neg (by omega)]
          intro hins
          obtain ⟨a', c', ha', h1', h2'⟩ := hwf2 _ hins
          have hnotin : ¬ (addr ≤ a' ∧ a' < addr + c.clength) := by
            intro hin
            rw [hun a' hin.1 hin.2] at ha'
            cases ha'
          have hstep := (hwf1 a' c' ha').2.1 (addr - a') (by omega) (by omega)
          rw [show a' + (addr - a') = addr by ring] at hstep
          rw [hun addr (by omega) (by omega)] at hstep
          cases hstep
      · rw [if_neg hx] at ha
        by_cases hx2 : addr + 1 ≤ a ∧ a ≤ addr + (c.clength - 1)
        · rw [if_pos hx2] at ha
          cases ha
        · rw [if_neg hx2] at ha
          obtain ⟨hl2, hs2, ht2⟩ := hwf1 a c2 ha
          refine ⟨hl2, ?_, ?_⟩
          · intro i hi1 hi2
            have hold := hs2 i hi1 hi2
            have hnm : ¬ (addr ≤ a + i ∧ a + i < addr + c.clength) := by
              intro hin
              rw [hun _ hin.1 hin.2] at hold
              cases hold
            rw [heval, if_neg (by omega), if_neg (by omega)]
            exact hold
          · rw [heval]
            by_cases hta : a + c2.clength = addr
            · rw [if_pos hta]
              simp
            · rw [if_neg hta]
              by_cases htb : addr + 1 ≤ a + c2.clength ∧
                  a + c2.clength ≤ addr + (c.clength - 1)
              · exfalso
                by_cases hcase : a < addr
                · have hstep := hs2 (addr - a) (by omega) (by omega)
                  rw [show a + (addr - a) = addr by ring] at hstep
                  rw [hun addr (by omega) (by omega)] at hstep
                  cases hstep
                · have hua : cls a = .unclassified :=
                    hun a (by omega) (by omega)
                  rw [hua] at ha
                  cases ha
              · rw [if_neg htb]
                exact ht2
    · intro p hp
      rw [heval p] at hp
      by_cases hx : p = addr
      · rw [if_pos hx] at hp
        cases hp
      · rw [if_neg hx] at hp
        by_cases hx2 : addr + 1 ≤ p ∧ p ≤ addr + (c.clength - 1)
        · refine ⟨addr, c, ?_, by omega, by omega⟩
          rw [heval, if_pos rfl]
        · rw [if_neg hx2] at hp
          obtain ⟨a', c', ha', hlt1, hlt2⟩ := hwf2 p hp
          have hnin : ¬ (addr ≤ a' ∧ a' < addr + c.clength) := by
            intro hin
            rw [hun _ hin.1 hin.2] at ha'
            cases ha'
          refine ⟨a', c', ?_, hlt1, hlt2⟩
          rw [heval, if_neg (by omega), if_neg (by omega)]
          exact ha'
    · intro a hb
      rw [heval, if_neg (by omega), if_neg (by omega)]
      exact hwf3 a hb
  · -- split_classification preserves the invariant
    intro cls addr cls' hwf haddr0 hsplit
    rw [split_classification] at hsplit
    by_cases hhi : (0x10000 : Int) ≤ addr
    · rw [if_pos hhi] at hsplit
      injection hsplit with h'
      rw [← h']
      exact hwf
    · rw [if_neg hhi] at hsplit
      by_cases hni : cls addr ≠ .inside
      · rw [if_pos hni] at hsplit
        injection hsplit with h'
        rw [← h']
        exact hwf
      · rw [if_neg hni] at hsplit
        push_neg at hni
        obtain ⟨hwf1, hwf2, hwf3⟩ := hwf
        obtain ⟨a0, c0, ha0, hlt1, hlt2⟩ := hwf2 addr hni
        obtain ⟨hc0pos, hc0sent, hc0tail⟩ := hwf1 a0 c0 ha0
        have ha0range : ¬ (a0 < 0 ∨ (0x10000 : Int) ≤ a0) := by
          intro hb
          rw [hwf3 a0 hb] at ha0
          cases ha0
        push_neg at ha0range
        have hscan : scan_back cls addr (addr.toNat + 1) = a0 := by
          apply scan_back_eq
          · rw [ha0]
            simp
          · intro x hx1 hx2
            have hstep := hc0sent (x - a0) (by omega) (by omega)
            rw [show a0 + (x - a0) = x by ring] at hstep
            exact hstep
          · omega
          · omega
        rw [hscan, ha0] at hsplit
        dsimp only at hsplit
        have hmk1 : mkByte (c0.clength - (addr - a0)) =
            some (.byte (c0.clength - (addr - a0))) := by
          rw [mkByte, if_pos (by omega)]
        have hmk2 : mkByte (addr - a0) = some (.byte (addr - a0)) := by
          rw [mkByte, if_pos (by omega)]
        rw [hmk1, hmk2] at hsplit
        dsimp only at hsplit
        injection hsplit with h'
        have heval : ∀ x : Int, cls' x =
            if x = a0 then .cls (.byte (addr - a0))
            else if x = addr then .cls (.byte (c0.clength - (addr - a0)))
            else cls x := by
          intro x
          rw [← h', upd_eval, upd_eval]
        have huniq : ∀ (a : Int) (c2 : Classification), cls a = .cls c2 →
            a ≠ a0 → ∀ i : Int, 1 ≤ i → i < c2.clength → a + i ≠ addr := by
          intro a c2 ha hne i hi1 hi2 heq
          by_cases hcmp : a < a0
          · have hstep := (hwf1 a c2 ha).2.1 (a0 - a) (by omega) (by omega)
            rw [show a + (a0 - a) = a0 by ring] at hstep
            rw [ha0] at hstep
            cases hstep
          · have hstep := hc0sent (a - a0) (by omega) (by omega)
            rw [show a0 + (a - a0) = a by ring] at hstep
            rw [ha] at hstep
            cases hstep
        refine ⟨?_, ?_, ?_⟩
        · intro a c2 ha
          rw [heval a] at ha
          by_cases hx : a = a0
          · rw [if_pos hx] at ha
            injection ha with hc2
            subst hc2
            refine ⟨by simp only [Classification.clength]; omega, ?_, ?_⟩
            · intro i hi1 hi2
              simp only [Classification.clength] at hi2
              rw [heval, if_neg (by omega), if_neg (by omega),
                show a + i = a0 + i from by omega]
              exact hc0sent i hi1 (by omega)
            · simp only [Classification.clength]
              rw [show a + (addr - a0) = addr from by omega]
              rw [heval, if_neg (by omega), if_pos rfl]
              simp
          · rw [if_neg hx] at ha
            by_cases hx2 : a = addr
            · rw [if_pos hx2] at ha
              injection ha with hc2
              subst hc2
              refine ⟨?_, ?_, ?_⟩
              · show 0 < c0.clength - (addr - a0)
                omega
              · intro i hi1 hi2
                have hi2' : i < c0.clength - (addr - a0) := hi2
                rw [heval, if_neg (by omega), if_neg (by omega)]
                have hstep := hc0sent ((addr - a0) + i) (by omega) (by omega)
                rw [show a0 + ((addr - a0) + i) = a + i from by omega] at hstep
                exact hstep
              · show cls' (a + (c0.clength - (addr - a0))) ≠ CEntry.inside
                rw [show a + (c0.clength - (addr - a0)) = a0 + c0.clength
                  from by omega]
                rw [heval, if_neg (by omega), if_neg (by omega)]
                exact hc0tail
            · rw [if_neg hx2] at ha
              obtain ⟨hl2, hs2, ht2⟩ := hwf1 a c2 ha
              refine ⟨hl2, ?_, ?_⟩
              · intro i hi1 hi2
                have hold := hs2 i hi1 hi2
                have hne0 : a + i ≠ a0 := by
                  intro heq
                  rw [heq, ha0] at hold
                  cases hold
                have hnea : a + i ≠ addr := huniq a c2 ha hx i hi1 hi2
                rw [heval, if_neg hne0, if_neg hnea]
                exact hold
              · rw [heval]
                by_cases hta : a + c2.clength = a0
                · rw [if_pos hta]
                  simp
                · rw [if_neg hta]
                  by_cases htb : a + c2.clength = addr
                  · rw [if_pos htb]
                    simp
                  · rw [if_neg htb]
                    exact ht2
        · intro p hp
          rw [heval p] at hp
          by_cases hx : p = a0
          · rw [if_pos hx] at hp
            cases hp
          · rw [if_neg hx] at hp
            by_cases hx2 : p = addr
            · rw [if_pos hx2] at hp
              cases hp
            · rw [if_neg hx2] at hp
              obtain ⟨a', c', ha', hp1, hp2⟩ := hwf2 p hp
              by_cases hw : a' = a0
              · rw [hw, ha0] at ha'
                injection ha' with hcc
                subst hcc
                by_cases hside : p < addr
                · refine ⟨a0, .byte (addr - a0), ?_, by omega, ?_⟩
                  · rw [heval, if_pos rfl]
                  · simp only [Classification.clength]
                    omega
                · refine ⟨addr, .byte (c0.clength - (addr - a0)), ?_,
                    by omega, ?_⟩
                  · rw [heval, if_neg (by omega), if_pos rfl]
                  · show p < addr + (c0.clength - (addr - a0))
                    omega
              · have hwa : a' ≠ addr := by
                  intro heq
                  rw [heq, hni] at ha'
                  cases ha'
                refine ⟨a', c', ?_, hp1, hp2⟩
                rw [heval, if_neg hw, if_neg hwa]
                exact ha'
        · intro a hb
          rw [heval, if_neg (by omega), if_neg (by omega)]
          exact hwf3 a hb

/-- Witness for C6: the invariant holds after installing a three-byte
run at 0x2F on the empty array and again after splitting it at 0x30. -/
theorem classification_wf_invariant_witness :
    add_classification cls_empty 0x2f (.byte 3) = some cls_added ∧
    split_classification cls_added 0x30 = some cls_split ∧
    ClsWF cls_added ∧ ClsWF cls_split :=
  have h1 : add_classification cls_empty 0x2f (.byte 3) = some cls_added :=
    rfl
  have h2 : split_classification cls_added 0x30 = some cls_split := rfl
  have hwf1 : ClsWF cls_added :=
    classification_wf_invariant.2.1 cls_empty 0x2f (.byte 3) cls_added
      classification_wf_invariant.1 (by decide) h1
  ⟨h1, h2, hwf1,
    classification_wf_invariant.2.2 cls_added 0x30 cls_split hwf1
      (by decide) h2⟩

/-! ## C7: stringterm / stringz and loaded-range ends -/

theorem scan_term_none (mem : Mem) (term : Int) :
    ∀ (fuel : Nat) (a : Int),
      (∀ i : Int, a ≤ i → i < a + (fuel : Int) → mem i ≠ some term) →
      scan_term mem term a fuel = none := by
  intro fuel
  induction fuel with
  | zero =>
      intro a _
      rw [scan_term]
  | succ n ih =>
      intro a hno
      rw [scan_term, if_neg (hno a le_rfl (by push_cast; omega))]
      exact ih (a + 1) (fun i h1 h2 => hno i (by omega) (by push_cast; omega))

theorem scan_term_first (mem : Mem) (term : Int) :
    ∀ (fuel : Nat) (a e : Int), mem e = some term → a ≤ e →
      e < a + (fuel : Int) →
      (∀ i : Int, a ≤ i → i < e → mem i ≠ some term) →
      scan_term mem term a fuel = some e := by
  intro fuel
  induction fuel with
  | zero =>
      intro a e _ h1 h2 _
      push_cast at h2
      omega
  | succ n ih =>
      intro a e hmem h1 h2 hno
      by_cases he : a = e
      · rw [scan_term, if_pos (he ▸ hmem), he]
      · rw [scan_term, if_neg (hno a le_rfl (by omega))]
        exact ih (a + 1) e hmem (by omega) (by push_cast at h2 ⊢; omega)
          (fun i hi1 hi2 => hno i (by omega) hi2)

/-- Counterexample for C7 as stated: the loaded range is 0x10-0x11 with
bytes 1, 2 and no zero terminator; yet `stringz` does not fail that
branch - it scans on through the not-loaded bytes, stops at the stray
zero at 0x80, succeeds, and classifies the stretch 0x10-0x80 that
reaches far past the end of the loaded range (0x50 is a not-loaded byte
inside the new string classification). -/
theorem stringz_reads_past_counterexample :
    mem_gap 0x10 = some 1 ∧ mem_gap 0x11 = some 2 ∧
    (∀ a : Int, 0x12 ≤ a → a < 0x80 → mem_gap a = none) ∧
    stringz initial_state cls_empty mem_gap 0x10 false =
      some stringz_gap_out ∧
    stringz_gap_out.2 = 0x81 ∧
    stringz_gap_out.1 0x50 = .inside ∧ mem_gap 0x50 = none := by
  have hmemnone : ∀ a : Int, 0x12 ≤ a → a < 0x80 → mem_gap a = none := by
    intro a h1 h2
    rw [mem_gap, if_neg (by omega), if_neg (by omega), if_neg (by omega)]
  have hchk : r2b_checked initial_state 0x10 = some (0x10, base_move_id) := by
    rw [r2b_checked, r2b_base_only initial_state (fun _ => rfl) 0x10 (by decide)]
  have hscan : scan_term mem_gap 0 0x10 ((0x10000 : Int) - 0x10).toNat =
      some 0x80 := by decide
  refine ⟨rfl, rfl, hmemnone, ?_, rfl, by decide, rfl⟩
  rw [stringz, stringterm, hchk]
  dsimp only
  rw [hscan]
  rfl

/-- C7 (amended): the `stringterm` scan ignores loaded-range ends: it
stops at the first byte equal to the terminator anywhere at or after
the start address (a not-loaded byte never equals the terminator), and
when no byte below 0x10000 holds the terminator the whole run aborts
with an index error at the end of the memory array instead of failing
just that branch. -/
theorem stringterm_scan (s : MoveState) (cls : Cls) (mem : Mem)
    (r term : Int) (excl : Bool) (b0 : Int) (m0 : Nat)
    (hchk : r2b_checked s r = some (b0, m0)) (_hb0 : 0 ≤ b0) :
    ((∀ i : Int, b0 ≤ i → i < 0x10000 → mem i ≠ some term) →
      stringterm s cls mem r term excl = none) ∧
    (∀ e : Int, mem e = some term → b0 ≤ e → e < 0x10000 →
      (∀ i : Int, b0 ≤ i → i < e → mem i ≠ some term) →
      scan_term mem term b0 ((0x10000 : Int) - b0).toNat = some e) := by
  constructor
  · intro hno
    rw [stringterm, hchk]
    dsimp only
    rw [scan_term_none mem term ((0x10000 : Int) - b0).toNat b0
      (fun i h1 h2 => hno i h1 (by omega))]
  · intro e hmem he1 he2 hno
    exact scan_term_first mem term ((0x10000 : Int) - b0).toNat b0 e hmem
      he1 (by omega) hno

/-- Witness for C7 (amended): with no zero byte loaded anywhere at or
after the start address, `stringterm` with terminator 0 aborts. -/
theorem stringterm_scan_witness :
    r2b_checked initial_state 0x10 = some (0x10, base_move_id) ∧
    (∀ i : Int, 0x10 ≤ i → i < 0x10000 → mem_nozero i ≠ some 0) ∧
    stringterm initial_state cls_empty mem_nozero 0x10 0 false = none := by
  have hchk : r2b_checked initial_state 0x10 = some (0x10, base_move_id) := by
    rw [r2b_checked, r2b_base_only initial_state (fun _ => rfl) 0x10 (by decide)]
  have hno : ∀ i : Int, 0x10 ≤ i → i < 0x10000 → mem_nozero i ≠ some 0 := by
    intro i _ _
    rw [mem_nozero]
    split_ifs <;> decide
  exact ⟨hchk, hno,
    (stringterm_scan initial_state cls_empty mem_nozero 0x10 0 false 0x10
      base_move_id hchk (by decide)).1 hno⟩

/-! ## C8: add_label name routing -/

theorem add_relevant_preserves (lab : Label) (mid : Option Nat) :
    (lab.add_relevant mid).explicit_names = lab.explicit_names ∧
    (lab.add_relevant mid).expressions = lab.expressions := by
  cases mid with
  | none => exact ⟨rfl, rfl⟩
  | some m =>
      rw [Label.add_relevant]
      split_ifs <;> exact ⟨rfl, rfl⟩

/-- Counterexample for C8 as stated: the name "a1" contains a digit but
is nevertheless a simple identifier (digits are allowed after the first
character), so `add_label` records it as an explicit name (under the
defaulted base move id) and not as an expression. -/
theorem add_label_digit_counterexample :
    is_simple_name "a1" = some true ∧
    add_label initial_state labels_empty 0x2000 (some "a1") none true =
      some labels_a1 ∧
    (labels_a1 0x2000).explicit_names = [("a1", base_move_id)] ∧
    (labels_a1 0x2000).expressions = [] :=
  ⟨rfl, rfl, rfl, rfl⟩

/-- C8 (amended): a non-None name is routed by the simple-identifier
test (a letter or underscore followed by letters, digits or
underscores).  A name matching the pattern is recorded as an explicit
name under the move id, a `None` move id defaulting to the base move
id, and the call succeeds exactly when that id is valid; a name failing
the pattern is recorded as an expression, and the call succeeds exactly
when the move id is a valid non-None id (`add_expression` does not
default a `None` move id).  In both cases the text is appended only
when it is not already among the label's known names. -/
theorem add_label_routing (ms : MoveState) (ls : Labels) (r : Int)
    (name : String) (move_id : Option Nat) (di : Bool) (b : Bool)
    (hsn : is_simple_name name = some b) :
    (b = true →
      ((add_label ms ls r (some name) move_id di).isSome = true ↔
        is_valid_move_id ms (move_id.getD base_move_id) = true)) ∧
    (b = false →
      ((add_label ms ls r (some name) move_id di).isSome = true ↔
        ∃ m, move_id = some m ∧ is_valid_move_id ms m = true)) ∧
    (∀ ls', add_label ms ls r (some name) move_id di = some ls' →
      (b = true →
        (ls' r).expressions = (ls r).expressions ∧
        (ls' r).explicit_names =
          (if name ∈ (ls r).all_names then (ls r).explicit_names
           else (ls r).explicit_names ++
             [(name, move_id.getD base_move_id)])) ∧
      (b = false →
        (ls' r).explicit_names = (ls r).explicit_names ∧
        (ls' r).expressions =
          (if name ∈ (ls r).all_names then (ls r).expressions
           else (ls r).expressions ++
             [(name, move_id.getD base_move_id)]))) ∧
    (∀ (c : Char) (rest : List Char), name.data = c :: rest →
      b = (valid_first c && (c :: rest).all valid_later)) := by
  cases b with
  | true =>
      refine ⟨fun _ => ?_, fun hf => Bool.noConfusion hf, ?_, ?_⟩
      · simp only [add_label, Label.add_explicit_name, hsn]
        by_cases hv : is_valid_move_id ms (move_id.getD base_move_id) = true
        · rw [if_pos hv]
          by_cases hm : name ∈ ({ ls r with definable_inline :=
              (ls r).definable_inline && di } : Label).all_names
          · rw [if_pos hm]
            exact iff_of_true rfl hv
          · rw [if_neg hm]
            exact iff_of_true rfl hv
        · rw [if_neg hv]
          exact iff_of_false (fun hcon => Bool.noConfusion hcon) hv
      · intro ls' h
        simp only [add_label, Label.add_explicit_name, hsn] at h
        refine ⟨fun _ => ?_, fun hf => Bool.noConfusion hf⟩
        by_cases hv : is_valid_move_id ms (move_id.getD base_move_id) = true
        · rw [if_pos hv] at h
          by_cases hm : name ∈ ({ ls r with definable_inline :=
              (ls r).definable_inline && di } : Label).all_names
          · rw [if_pos hm] at h
            dsimp only at h
            rw [Option.some.injEq] at h
            subst h
            refine ⟨?_, ?_⟩
            · rw [upd_eval, if_pos rfl, (add_relevant_preserves _ _).2]
            · rw [if_pos (show name ∈ (ls r).all_names from hm),
                upd_eval, if_pos rfl, (add_relevant_preserves _ _).1]
          · rw [if_neg hm] at h
            dsimp only at h
            rw [Option.some.injEq] at h
            subst h
            refine ⟨?_, ?_⟩
            · rw [upd_eval, if_pos rfl, (add_relevant_preserves _ _).2]
            · rw [if_neg (show name ∉ (ls r).all_names from hm),
                upd_eval, if_pos rfl, (add_relevant_preserves _ _).1]
        · rw [if_neg hv] at h
          exact Option.noConfusion h
      · intro c rest hdata
        rw [is_simple_name, hdata] at hsn
        dsimp only at hsn
        injection hsn with h'
        exact h'.symm
  | false =>
      refine ⟨fun ht => Bool.noConfusion ht, fun _ => ?_, ?_, ?_⟩
      · simp only [add_label, Label.add_expression, hsn]
        cases move_id with
        | none =>
            refine iff_of_false (fun hcon => Bool.noConfusion hcon) ?_
            rintro ⟨m, hm', _⟩
            exact Option.noConfusion hm'
        | some m =>
            dsimp only
            by_cases hv : is_valid_move_id ms m = true
            · rw [if_pos hv]
              by_cases hm : name ∈ ({ ls r with definable_inline :=
                  (ls r).definable_inline && di } : Label).all_names
              · rw [if_pos hm]
                exact iff_of_true rfl ⟨m, rfl, hv⟩
              · rw [if_neg hm]
                exact iff_of_true rfl ⟨m, rfl, hv⟩
            · rw [if_neg hv]
              refine iff_of_false (fun hcon => Bool.noConfusion hcon) ?_
              rintro ⟨m', hm', hv'⟩
              injection hm' with he
              subst he
              exact hv hv'
      · intro ls' h
        simp only [add_label, Label.add_expression, hsn] at h
        refine ⟨fun ht => Bool.noConfusion ht, fun _ => ?_⟩
        cases move_id with
        | none =>
            dsimp only at h
            exact Option.noConfusion h
        | some m =>
            dsimp only at h
            by_cases hv : is_valid_move_id ms m = true
            · rw [if_pos hv] at h
              by_cases hm : name ∈ ({ ls r with definable_inline :=
                  (ls r).definable_inline && di } : Label).all_names
              · rw [if_pos hm] at h
                dsimp only at h
                rw [Option.some.injEq] at h
                subst h
                refine ⟨?_, ?_⟩
                · rw [upd_eval, if_pos rfl, (add_relevant_preserves _ _).1]
                · rw [if_pos (show name ∈ (ls r).all_names from hm),
                    upd_eval, if_pos rfl, (add_relevant_preserves _ _).2]
              · rw [if_neg hm] at h
                dsimp only at h
                rw [Option.some.injEq] at h
                subst h
                refine ⟨?_, ?_⟩
                · rw [upd_eval, if_pos rfl, (add_relevant_preserves _ _).1]
                · rw [if_neg (show name ∉ (ls r).all_names from hm),
                    upd_eval, if_pos rfl, (add_relevant_preserves _ _).2]
                  rfl
            · rw [if_neg hv] at h
              exact Option.noConfusion h
      · intro c rest hdata
        rw [is_simple_name, hdata] at hsn
        dsimp only at hsn
        injection hsn with h'
        exact h'.symm

/-- Witness for C8 (amended): the name "l1+2" fails the pattern (it
contains an operator), so with the valid move id 1 of `steal_state` it
is recorded as an expression under that id. -/
theorem add_label_routing_witness :
    is_simple_name "l1+2" = some false ∧
    is_valid_move_id steal_state 1 = true ∧
    add_label steal_state labels_empty 0x30 (some "l1+2") (some 1) true =
      some labels_expr ∧
    (labels_expr 0x30).expressions = [("l1+2", 1)] ∧
    (labels_expr 0x30).explicit_names = [] := by
  have h0 : add_label steal_state labels_empty 0x30 (some "l1+2") (some 1)
      true = some labels_expr := rfl
  have h := ((add_label_routing steal_state labels_empty 0x30 "l1+2"
    (some 1) true false rfl).2.2.1 labels_expr h0).2 rfl
  exact ⟨rfl, rfl, h0, h.2.trans rfl, h.1⟩

end Py8dis
